import Mathlib

/-
Verification development for the SkillShock career-history pipeline
(src/ingest.py, src/analytics.py, src/export.py).

The Python source is shallowly embedded:
* pure helpers (normalize_level, months_between) become Lean functions on
  `String` / `List Char`;
* the SQLite store becomes explicit record structures holding row lists;
* fallible Python code (exceptions) returns `Except PyErr`;
* Python floats are modelled by exact rationals `ℚ` (the only float
  operations in scope are division by 30.44, division of counts, medians
  and `round(x, k)`, which is modelled as round-half-to-even on `ℚ`).
-/

set_option linter.unusedVariables false

namespace SkillShock

/-! ## Level normalization (src/ingest.py, `_LEVEL_RULES` / `normalize_level`)

The source matches Python regular expressions of the shape
`\b(alt1|alt2|...)\b` with `re.I` against the raw string.  Every
alternative is a literal keyword, except that `vice\s*president`,
`senior\s+director` and `senior\s+manager` contain a whitespace class.
We embed exactly these patterns: a pattern is a list of alternatives,
each alternative a list of tokens (literal char, `\s+`, `\s0`), with an
implicit word boundary `\b` on both sides.  Since in every alternative a
whitespace class is followed by a literal non-space character, greedy
whitespace consumption is equivalent to the backtracking regex semantics.
`\w` (hence `\b`) is modelled as ASCII alphanumeric or underscore, and
`\s` as the six ASCII whitespace characters; case folding is ASCII
`Char.toLower` (the rule keywords themselves are ASCII).
-/

def isWordChar (c : Char) : Bool := c.isAlphanum || c == '_'

def isSpaceChar (c : Char) : Bool :=
  c == ' ' || c == '\t' || c == '\n' || c == '\r' || c == '\x0b' || c == '\x0c'

inductive PatTok where
  | lit (c : Char)
  | ws1
  | ws0
deriving Repr, DecidableEq

/-- Drop a maximal run of whitespace characters. -/
def dropSpaces : List Char → List Char
  | [] => []
  | c :: rest => if isSpaceChar c then dropSpaces rest else c :: rest

/-- Word boundary `\b` after the matched text: next char absent or non-word. -/
def matchEnd : List Char → Bool
  | [] => true
  | c :: _ => !isWordChar c

/-- Match one alternative (token list) against a prefix of the input,
including the trailing `\b`. -/
def matchSeq : List PatTok → List Char → Bool
  | [], rest => matchEnd rest
  | .lit _ :: _, [] => false
  | .lit c :: ts, x :: rest => x.toLower == c && matchSeq ts rest
  | .ws1 :: _, [] => false
  | .ws1 :: ts, x :: rest => isSpaceChar x && matchSeq ts (dropSpaces rest)
  | .ws0 :: ts, rest => matchSeq ts (dropSpaces rest)

/-- `re.search`: try every position; `atB` records whether the position
sits at a word boundary (start of string or preceded by a non-word char);
every alternative starts with a word character, so the leading `\b`
amounts to that condition. -/
def searchAux (alts : List (List PatTok)) : List Char → Bool → Bool
  | [], atB => atB && alts.any (fun a => matchSeq a [])
  | c :: rest, atB =>
    (atB && alts.any (fun a => matchSeq a (c :: rest))) ||
      searchAux alts rest (!isWordChar c)

def regexSearch (alts : List (List PatTok)) (s : String) : Bool :=
  searchAux alts s.data true

def lits (s : String) : List PatTok := s.data.map PatTok.lit

def csuiteAlts : List (List PatTok) :=
  [lits "c-suite", lits "chief", lits "ceo", lits "cto", lits "cfo", lits "coo"]

def vpAlts : List (List PatTok) :=
  [lits "evp", lits "svp", lits "vice" ++ [PatTok.ws0] ++ lits "president", lits "vp"]

def directorAlts : List (List PatTok) :=
  [lits "senior" ++ [PatTok.ws1] ++ lits "director", lits "director"]

def managerAlts : List (List PatTok) :=
  [lits "senior" ++ [PatTok.ws1] ++ lits "manager", lits "manager"]

def staffAlts : List (List PatTok) :=
  [lits "principal", lits "staff", lits "lead"]

def seniorAlts : List (List PatTok) :=
  [lits "senior", lits "sr"]

def icAlts : List (List PatTok) :=
  [lits "junior", lits "associate", lits "entry", lits "ic"]

/-- `_LEVEL_RULES` from src/ingest.py, in source order. -/
def levelRules : List (List (List PatTok) × String) :=
  [ (csuiteAlts, "C-Suite"),
    (vpAlts, "VP"),
    (directorAlts, "Director"),
    (managerAlts, "Manager"),
    (staffAlts, "Staff"),
    (seniorAlts, "Senior"),
    (icAlts, "IC") ]

def applyRules : List (List (List PatTok) × String) → String → String
  | [], _ => "Unknown"
  | (alts, lvl) :: rest, s => if regexSearch alts s then lvl else applyRules rest s

/-- `normalize_level` from src/ingest.py; `none` models Python `None`,
and `if not raw` makes both `None` and the empty string yield Unknown. -/
def normalize_level (raw : Option String) : String :=
  match raw with
  | none => "Unknown"
  | some s => if s = "" then "Unknown" else applyRules levelRules s

/-! ## `months_between` (src/ingest.py)

`int(s)` in Python: optional surrounding whitespace, optional sign, one
or more ASCII digits (underscore digit separators are out of the
modelled domain).  `s[:4]` and `s[5:7]` are slices, which never raise.
-/

def trimSpaces (cs : List Char) : List Char :=
  (dropSpaces (dropSpaces cs.reverse).reverse)

def digitsVal (ds : List Char) : Option Nat :=
  if ds.isEmpty then none
  else if ds.all Char.isDigit then
    some (ds.foldl (fun a c => a * 10 + (c.toNat - 48)) 0)
  else none

/-- Python `int` applied to a (sliced) string. -/
def pyInt (cs : List Char) : Option Int :=
  match trimSpaces cs with
  | '+' :: rest => (digitsVal rest).map Int.ofNat
  | '-' :: rest => (digitsVal rest).map (fun n => -(n : Int))
  | rest => (digitsVal rest).map Int.ofNat

/-- `months_between` from src/ingest.py.  `none`/empty string arguments
are falsy (`if not start_str or not end_str`); a failed `int` raises
`ValueError`, caught and turned into `None`. -/
def months_between (s e : Option String) : Option Int :=
  match s, e with
  | some ss, some es =>
    if ss = "" || es = "" then none
    else
      match pyInt (ss.data.take 4), pyInt ((ss.data.drop 5).take 2),
            pyInt (es.data.take 4), pyInt ((es.data.drop 5).take 2) with
      | some sy, some sm, some ey, some em =>
        some (max 0 ((ey - sy) * 12 + (em - sm)))
      | _, _, _, _ => none
  | _, _ => none

/-- Plain substring containment (used to state claims about titles
"containing" a word, as distinct from the word-boundary regex match). -/
def isInfixChars (pat : List Char) : List Char → Bool
  | [] => pat.isEmpty
  | c :: rest => pat.isPrefixOf (c :: rest) || isInfixChars pat rest

def strContains (s pat : String) : Bool := isInfixChars pat.data s.data

/-! ## Ingestion layer (src/ingest.py, `load_record` / `ingest_file`)

JSON values produced by `json.loads` (JSON numbers are modelled as
integers; the claims only exercise integer numerics).  Python semantics
needed by `load_record`: truthiness, the short-circuiting `or`,
`dict.get`, `dict[k]` (TypeError on a non-dict, KeyError on a missing
key), iteration (lists, strings and dicts are iterable), and `.get` on a
non-dict raising AttributeError.

The SQLite store is modelled by row lists.  A Python value bound as a
SQL parameter becomes a `SqlVal` (None/bool/int/str bind; lists and
dicts raise an uncatchable binding error, `PyErr.bindError`); declared
column affinities (TEXT / INTEGER) convert the bound value as sqlite3
does.  On an uncaught exception the model discards the store — in the
source the partial inserts stay on the uncommitted connection, but every
caller aborts before committing, so the difference is unobservable.
-/

inductive JValue where
  | null
  | bool (b : Bool)
  | num (n : Int)
  | str (s : String)
  | arr (elems : List JValue)
  | obj (fields : List (String × JValue))

inductive PyErr where
  | typeError
  | keyError
  | attributeError
  | bindError
deriving Repr, DecidableEq

/-- Python truthiness of a JSON-shaped value. -/
def truthy : JValue → Bool
  | .null => false
  | .bool b => b
  | .num n => n != 0
  | .str s => !(s = "")
  | .arr l => !l.isEmpty
  | .obj l => !l.isEmpty

/-- Python `a or b` (returns `b` whenever `a` is falsy). -/
def orElseJ (a b : JValue) : JValue := if truthy a then a else b

/-- `dict.get k` with default `None`: `json.loads` keeps the last of
duplicate keys, so lookup returns the last binding. -/
def dictGet (fields : List (String × JValue)) (k : String) : Option JValue :=
  match fields with
  | [] => none
  | (k', v) :: rest =>
    match dictGet rest k with
    | some r => some r
    | none => if k' = k then some v else none

/-- Python `for x in v`: lists yield elements, strings their characters,
dicts their keys; other values raise TypeError. -/
def pyIter : JValue → Except PyErr (List JValue)
  | .arr l => .ok l
  | .str s => .ok (s.data.map (fun c => .str (String.singleton c)))
  | .obj l => .ok (l.map (fun kv => .str kv.1))
  | _ => .error .typeError

/-- A value as stored in a SQLite cell. -/
inductive SqlVal where
  | null
  | int (n : Int)
  | text (s : String)
deriving Repr, DecidableEq

/-- sqlite3 parameter binding of a Python value (`none` = absent = None). -/
def bindVal : Option JValue → Except PyErr SqlVal
  | none => .ok .null
  | some .null => .ok .null
  | some (.bool b) => .ok (.int (if b then 1 else 0))
  | some (.num n) => .ok (.int n)
  | some (.str s) => .ok (.text s)
  | some (.arr _) => .error .bindError
  | some (.obj _) => .error .bindError

/-- Text written exactly as an optionally signed integer literal. -/
def sqliteIntOf (s : String) : Option Int :=
  match s.data with
  | '+' :: r => (digitsVal r).map Int.ofNat
  | '-' :: r => (digitsVal r).map (fun n => -(n : Int))
  | r => (digitsVal r).map Int.ofNat

/-- TEXT column affinity: integers are stored as their decimal text. -/
def applyTextAffinity : SqlVal → SqlVal
  | .int n => .text (toString n)
  | v => v

/-- INTEGER column affinity: integer-shaped text is stored as an integer. -/
def applyIntAffinity : SqlVal → SqlVal
  | .text s =>
    (match sqliteIntOf s with
     | some n => .int n
     | none => .text s)
  | v => v

structure PersonRowJ where
  id : SqlVal
  created_at : SqlVal
  employment_status : SqlVal
  connections : SqlVal
  location_country : SqlVal
  location_city : SqlVal
deriving Repr, DecidableEq

structure JobRowJ where
  person_id : SqlVal
  title : SqlVal
  func : SqlVal
  level : SqlVal
  company_name : SqlVal
  company_industry : SqlVal
  started_at : SqlVal
  ended_at : SqlVal
  duration_months : SqlVal
  company_tenure_months : SqlVal
deriving Repr, DecidableEq

structure EduRowJ where
  person_id : SqlVal
  school : SqlVal
  degree : SqlVal
  field : SqlVal
  started_at : SqlVal
  ended_at : SqlVal
deriving Repr, DecidableEq

structure ChangeRowJ where
  person_id : SqlVal
  title_change_detected_at : SqlVal
  company_change_detected_at : SqlVal
  info_change_detected_at : SqlVal
deriving Repr, DecidableEq

structure StoreJ where
  persons : List PersonRowJ
  jobs : List JobRowJ
  education : List EduRowJ
  changes : List ChangeRowJ
deriving Repr, DecidableEq

def emptyStoreJ : StoreJ := ⟨[], [], [], []⟩

/-- `INSERT OR IGNORE INTO persons`: the TEXT primary key conflicts when
an equal non-NULL key exists (SQLite treats NULL keys as all distinct). -/
def pkConflict (k : SqlVal) (rows : List PersonRowJ) : Bool :=
  match k with
  | .null => false
  | k => rows.any (fun r => decide (r.id = k))

def insertPersonRow (row : PersonRowJ) (st : StoreJ) : StoreJ :=
  if pkConflict row.id st.persons then st
  else { st with persons := st.persons ++ [row] }

/-- `months_between(started, ended)` where the arguments are the raw
values from the record: falsy arguments short-circuit to `None`; a
truthy non-string raises TypeError at the slicing step (uncaught — the
`try` block only catches ValueError and IndexError). -/
def months_between_py (s e : JValue) : Except PyErr (Option Int) :=
  if !truthy s || !truthy e then .ok none
  else
    match s, e with
    | .str ss, .str es => .ok (months_between (some ss) (some es))
    | _, _ => .error .typeError

/-- The duration/tenure resolution of `load_record`:
`job.get(key) or months_between(started, ended)` — the Python `or`
short-circuits, so a falsy pre-supplied value (None, 0, "", empty
containers) falls through to the computed value, which is then bound
into an INTEGER column. -/
def durationResolve (pre started ended : JValue) : Except PyErr SqlVal :=
  if truthy pre then (bindVal (some pre)).map applyIntAffinity
  else
    (months_between_py started ended).map
      (fun o => match o with | none => SqlVal.null | some n => SqlVal.int n)

/-- The per-job extraction and parameter binding from `load_record`. -/
def extractJob (pid : SqlVal) (j : JValue) : Except PyErr JobRowJ := do
  match j with
  | .obj jf =>
    let jg := fun k => (dictGet jf k).getD JValue.null
    let started := jg "started_at"
    let ended := jg "ended_at"
    let company := orElseJ (jg "company") (.obj [])
    let cc : JValue × JValue :=
      match company with
      | .obj cf =>
        if cf.isEmpty then
          (orElseJ (jg "company_name") .null,
           orElseJ (jg "company_industry") (jg "industry"))
        else
          ((dictGet cf "name").getD .null, (dictGet cf "industry").getD .null)
      | .str s =>
        (orElseJ (jg "company_name") (.str s),
         orElseJ (jg "company_industry") (jg "industry"))
      | _ =>
        (orElseJ (jg "company_name") .null,
         orElseJ (jg "company_industry") (jg "industry"))
    let dur ← durationResolve (jg "duration") started ended
    let ten ← durationResolve (jg "company_tenure") started ended
    -- `normalize_level(job.get("level") or job.get("seniority") or "")`:
    -- the argument is a string unless a truthy non-string was supplied, in
    -- which case `re.Pattern.search` raises TypeError.
    let levRaw := orElseJ (jg "level") (orElseJ (jg "seniority") (.str ""))
    let lev ← (match levRaw with
      | .str s => Except.ok (normalize_level (some s))
      | _ => Except.error PyErr.typeError)
    let titleV ← (bindVal (some (jg "title"))).map applyTextAffinity
    let funcV ← (bindVal (some (jg "function"))).map applyTextAffinity
    let cnameV ← (bindVal (some cc.1)).map applyTextAffinity
    let cindV ← (bindVal (some cc.2)).map applyTextAffinity
    let startV ← (bindVal (some started)).map applyTextAffinity
    let endV ← (bindVal (some ended)).map applyTextAffinity
    Except.ok
      { person_id := pid, title := titleV, func := funcV, level := .text lev,
        company_name := cnameV, company_industry := cindV,
        started_at := startV, ended_at := endV,
        duration_months := dur, company_tenure_months := ten }
  | _ => Except.error .attributeError

def insertJobsLoop (pid : SqlVal) : List JValue → StoreJ → Except PyErr StoreJ
  | [], st => .ok st
  | j :: rest, st => do
    let row ← extractJob pid j
    insertJobsLoop pid rest { st with jobs := st.jobs ++ [row] }

def extractEdu (pid : SqlVal) (ev : JValue) : Except PyErr EduRowJ := do
  match ev with
  | .obj ef =>
    let eg := fun k => (dictGet ef k).getD JValue.null
    let school ← (bindVal (some (eg "school"))).map applyTextAffinity
    let degree ← (bindVal (some (eg "degree"))).map applyTextAffinity
    let fld ← (bindVal (some (orElseJ (eg "field") (eg "major")))).map applyTextAffinity
    let sa ← (bindVal (some (eg "started_at"))).map applyTextAffinity
    let ea ← (bindVal (some (eg "ended_at"))).map applyTextAffinity
    Except.ok { person_id := pid, school := school, degree := degree,
                field := fld, started_at := sa, ended_at := ea }
  | _ => Except.error .attributeError

def insertEduLoop (pid : SqlVal) : List JValue → StoreJ → Except PyErr StoreJ
  | [], st => .ok st
  | e :: rest, st => do
    let row ← extractEdu pid e
    insertEduLoop pid rest { st with education := st.education ++ [row] }

/-- The location resolution and persons-row parameter binding of
`load_record` (store-independent). -/
def extractPersonRow (fields : List (String × JValue)) (pidJ : JValue) :
    Except PyErr PersonRowJ := do
  let rget := fun k => (dictGet fields k).getD JValue.null
  let loc := orElseJ (rget "location_details") (orElseJ (rget "location") (.obj []))
  let cc : JValue × JValue :=
    match loc with
    | .obj lf =>
      (orElseJ ((dictGet lf "country").getD .null) (rget "country"),
       orElseJ ((dictGet lf "locality").getD .null) ((dictGet lf "city").getD .null))
    | _ => (rget "country", .null)
  let pid ← (bindVal (some pidJ)).map applyTextAffinity
  let createdV ← (bindVal (some (rget "created_at"))).map applyTextAffinity
  let statusV ← (bindVal (some (rget "employment_status"))).map applyTextAffinity
  let connV ← (bindVal (some (rget "connections"))).map applyIntAffinity
  let countryV ← (bindVal (some cc.1)).map applyTextAffinity
  let cityV ← (bindVal (some cc.2)).map applyTextAffinity
  Except.ok ⟨pid, createdV, statusV, connV, countryV, cityV⟩

/-- The changes resolution and binding of `load_record`
(store-independent). -/
def extractChangeRow (fields : List (String × JValue)) (pid : SqlVal) :
    Except PyErr ChangeRowJ := do
  let rget := fun k => (dictGet fields k).getD JValue.null
  let chg := orElseJ (rget "changes") (.obj [])
  let cgetv := fun k =>
    match chg with
    | .obj cf => orElseJ ((dictGet cf k).getD .null) (rget k)
    | _ => rget k
  let tcV ← (bindVal (some (cgetv "title_change_detected_at"))).map applyTextAffinity
  let ccV ← (bindVal (some (cgetv "company_change_detected_at"))).map applyTextAffinity
  let icV ← (bindVal (some (cgetv "info_change_detected_at"))).map applyTextAffinity
  Except.ok ⟨pid, tcV, ccV, icV⟩

/-- `load_record` from src/ingest.py: `record["id"]` (TypeError on a
non-dict, KeyError when absent), the insert-or-ignore persons write, the
jobs loop, the education loop, one changes row. -/
def load_record (r : JValue) (st : StoreJ) : Except PyErr StoreJ := do
  match r with
  | .obj fields =>
    match dictGet fields "id" with
    | none => Except.error .keyError
    | some pidJ =>
      let prow ← extractPersonRow fields pidJ
      let st1 := insertPersonRow prow st
      let jlist ← pyIter ((dictGet fields "jobs").getD (.arr []))
      let st2 ← insertJobsLoop prow.id jlist st1
      let elist ← pyIter ((dictGet fields "education").getD (.arr []))
      let st3 ← insertEduLoop prow.id elist st2
      let crow ← extractChangeRow fields prow.id
      Except.ok { st3 with changes := st3.changes ++ [crow] }
  | _ => Except.error .typeError

/-- One stripped input line, by the outcome of the standard library
`json.loads` call (the JSON grammar itself is stdlib, not repository
code): empty after `strip`, undecodable, or decoded to a value. -/
inductive LineParse where
  | blank
  | badJson
  | record (v : JValue)

/-- `ingest_file` from src/ingest.py, over the decompressed lines:
skip blank lines without counting; count a line as skipped on
JSONDecodeError or KeyError; count it as loaded on success; any other
exception propagates.  Returns ((loaded, skipped), store). -/
def ingest_file : List LineParse → StoreJ → Except PyErr ((Nat × Nat) × StoreJ)
  | [], st => .ok ((0, 0), st)
  | .blank :: rest, st => ingest_file rest st
  | .badJson :: rest, st =>
    (ingest_file rest st).map (fun r => ((r.1.1, r.1.2 + 1), r.2))
  | .record v :: rest, st =>
    match load_record v st with
    | .ok st' => (ingest_file rest st').map (fun r => ((r.1.1 + 1, r.1.2), r.2))
    | .error .keyError => (ingest_file rest st).map (fun r => ((r.1.1, r.1.2 + 1), r.2))
    | .error e => .error e

/-! ## Analytics layer (src/analytics.py)

`_load_jobs` reads the jobs table into a DataFrame with columns
person_id, title, level, company_name, company_industry, started_at,
ended_at.  We model that DataFrame as a list of `JobRow` (TEXT columns
as `Option String`, with the level column a string — the repository only
ever stores the `normalize_level` result there).  The education query
projects (person_id, field).  Pandas operations are modelled as follows:
`dropna(subset=[c])` is a filter on `isSome`; `sort_values` is a sort on
the key with missing values placed last (the source uses a non-stable
quicksort, so the order of rows with equal keys is unspecified there;
the model fixes the stable order, which the spec flags as the intended
tie-break); `groupby` enumerates keys in ascending order, each group
keeping row order; `value_counts` counts in descending order (ties in
first-occurrence order); `Counter.most_common(n)` is a stable descending
sort by count, truncated to `n`. -/

structure JobRow where
  person_id : String
  title : Option String
  level : String
  company_name : Option String
  company_industry : Option String
  started_at : Option String
  ended_at : Option String
deriving Repr, DecidableEq

structure EduRow where
  person_id : String
  field : Option String
deriving Repr, DecidableEq

/-- The relational store as seen by analytics and export: person ids,
jobs rows, education rows (projected to the queried columns). -/
structure DB where
  persons : List String
  jobs : List JobRow
  education : List EduRow
deriving Repr, DecidableEq

/-- Code-point lexicographic string comparison (Python `str` ordering,
pandas object-column sort order, and SQLite TEXT comparison — memcmp on
UTF-8 preserves code-point order). -/
def strLtChars : List Char → List Char → Bool
  | [], [] => false
  | [], _ :: _ => true
  | _ :: _, [] => false
  | a :: as, b :: bs =>
    if a < b then true else if b < a then false else strLtChars as bs

def strLTb (a b : String) : Bool := strLtChars a.data b.data

/-- Ascending comparison of start keys, missing values last. -/
def startLTb : Option String → Option String → Bool
  | some a, some b => strLTb a b
  | some _, none => true
  | none, _ => false

/-- Sort key of `sort_values(["person_id", "started_at"])`. -/
def keyLTb (a b : JobRow) : Bool :=
  strLTb a.person_id b.person_id ||
    (decide (a.person_id = b.person_id) && startLTb a.started_at b.started_at)

def insertAsc (x : JobRow) : List JobRow → List JobRow
  | [] => [x]
  | y :: ys => if keyLTb y x then y :: insertAsc x ys else x :: y :: ys

/-- Stable ascending sort by (person_id, started_at). -/
def sortJobs : List JobRow → List JobRow
  | [] => []
  | x :: xs => insertAsc x (sortJobs xs)

/-- Sorted list of the distinct keys of a list, for a boolean strict
total order (used to model `groupby`, whose keys come out sorted). -/
def insKey (ltb : α → α → Bool) (x : α) : List α → List α
  | [] => [x]
  | y :: ys => if ltb x y then x :: y :: ys else if ltb y x then y :: insKey ltb x ys else y :: ys

def dedupSortBy (ltb : α → α → Bool) (l : List α) : List α :=
  l.foldl (fun acc x => insKey ltb x acc) []

def pairLTb (a b : String × String) : Bool :=
  strLTb a.1 b.1 || (decide (a.1 = b.1) && strLTb a.2 b.2)

/-- `df.groupby("person_id")`: keys ascending, rows in frame order. -/
def groupByPerson (rows : List JobRow) : List (String × List JobRow) :=
  (dedupSortBy strLTb (rows.map (fun r => r.person_id))).map
    (fun p => (p, rows.filter (fun r => decide (r.person_id = p))))

/-- Adjacent pairs of a list (`rows[i]`, `rows[i+1]`). -/
def adjPairs : List α → List (α × α)
  | [] => []
  | [_] => []
  | a :: b :: rest => (a, b) :: adjPairs (b :: rest)

/-- `collections.Counter` built by repeated increment: keys in first-seen
order, each with its multiplicity.  Also models `value_counts` before
its descending sort. -/
def bump [DecidableEq α] (k : α) : List (α × Nat) → List (α × Nat)
  | [] => [(k, 1)]
  | (k', c) :: rest => if k = k' then (k', c + 1) :: rest else (k', c) :: bump k rest

def countsFor [DecidableEq α] (l : List α) : List (α × Nat) :=
  l.foldl (fun acc k => bump k acc) []

/-- Stable insertion of an entry into a list sorted by descending count:
the new entry goes before the first entry with a count less than or
equal to its own, so earlier entries win ties. -/
def insertDesc (x : α × Nat) : List (α × Nat) → List (α × Nat)
  | [] => [x]
  | y :: ys => if y.2 ≤ x.2 then x :: y :: ys else y :: insertDesc x ys

def sortCountsDesc : List (α × Nat) → List (α × Nat)
  | [] => []
  | x :: xs => insertDesc x (sortCountsDesc xs)

/-- `counts.sum()`: sum of the count column. -/
def sumSnd : List (α × Nat) → Nat
  | [] => 0
  | x :: l => x.2 + sumSnd l

/-! ### Date handling for promotion velocity

`pd.to_datetime(col, errors="coerce")` is modelled for ISO `YYYY-MM-DD`
strings (the repository's data format): a valid calendar date inside the
pandas `Timestamp` range parses to its proleptic-Gregorian day number
(days since 0000-03-01); everything else coerces to NaT (`none`).
Midnight timestamps below `Timestamp.min` (1677-09-21T00:12) or above
`Timestamp.max` (2262-04-11T23:47) coerce to NaT, so the valid dates are
1677-09-22 through 2262-04-11. -/

def isLeap (y : Nat) : Bool := (y % 4 == 0 && y % 100 != 0) || y % 400 == 0

def daysInMonth (y m : Nat) : Nat :=
  if m == 2 then (if isLeap y then 29 else 28)
  else if m == 4 || m == 6 || m == 9 || m == 11 then 30
  else 31

/-- Day number of a Gregorian date, counted from 0000-03-01. -/
def daysFromCivil (y m d : Nat) : Nat :=
  let yy := if m ≤ 2 then y - 1 else y
  let era := yy / 400
  let yoe := yy % 400
  let mp := (m + 9) % 12
  let doy := (153 * mp + 2) / 5 + (d - 1)
  let doe := yoe * 365 + yoe / 4 - yoe / 100 + doy
  era * 146097 + doe

def digitVal (c : Char) : Nat := c.toNat - 48

def parseDate : Option String → Option Nat
  | none => none
  | some s =>
    match s.data with
    | [y1, y2, y3, y4, '-', m1, m2, '-', d1, d2] =>
      if [y1, y2, y3, y4, m1, m2, d1, d2].all Char.isDigit then
        let y := digitVal y1 * 1000 + digitVal y2 * 100 + digitVal y3 * 10 + digitVal y4
        let m := digitVal m1 * 10 + digitVal m2
        let d := digitVal d1 * 10 + digitVal d2
        if 1 ≤ m && m ≤ 12 && 1 ≤ d && d ≤ daysInMonth y m then
          let g := daysFromCivil y m d
          if daysFromCivil 1677 9 22 ≤ g && g ≤ daysFromCivil 2262 4 11 then some g
          else none
        else none
      else none
    | _ => none

/-! ### Promotion velocity (src/analytics.py, `promotion_velocity`) -/

def LEVEL_ORDER : List String :=
  ["IC", "Senior", "Staff", "Manager", "Director", "VP", "C-Suite"]

structure VelocityStat where
  median_months : ℚ
  sample_size : Nat
  low_confidence : Bool
deriving Repr, DecidableEq

/-- Rows kept by `promotion_velocity`: level in `LEVEL_ORDER`, start
parses (`to_datetime` + `dropna`). -/
def promoRows (jobs : List JobRow) : List JobRow :=
  jobs.filter (fun r => LEVEL_ORDER.contains r.level && (parseDate r.started_at).isSome)

/-- Sort key after `to_datetime`: (person_id, parsed start), used by
`promotion_velocity` (on its filtered rows every start parses). -/
def keyLTbD (a b : JobRow) : Bool :=
  strLTb a.person_id b.person_id ||
    (decide (a.person_id = b.person_id) &&
      (match parseDate a.started_at, parseDate b.started_at with
       | some x, some y => decide (x < y)
       | some _, none => true
       | none, _ => false))

def insertAscD (x : JobRow) : List JobRow → List JobRow
  | [] => [x]
  | y :: ys => if keyLTbD y x then y :: insertAscD x ys else x :: y :: ys

def sortJobsD : List JobRow → List JobRow
  | [] => []
  | x :: xs => insertAscD x (sortJobsD xs)

/-- `(next_start - this_start).days / 30.44` as an exact rational
(days · 100 / 3044, built with `mkRat` so that it evaluates by kernel
reduction; the Python float division is modelled exactly). -/
def gapMonths (a b : JobRow) : ℚ :=
  mkRat ((((parseDate b.started_at).getD 0 : Int) - ((parseDate a.started_at).getD 0 : Int)) * 100)
    3044

structure PromoTrans where
  from_level : String
  to_level : String
  gap_months : ℚ
deriving Repr, DecidableEq

/-- The flat transitions list built by the per-person loop. -/
def promoTransitions (jobs : List JobRow) : List PromoTrans :=
  (groupByPerson (sortJobsD (promoRows jobs))).flatMap (fun g =>
    (adjPairs g.2).filterMap (fun ab =>
      if ab.1.level = ab.2.level then none
      else some ⟨ab.1.level, ab.2.level, gapMonths ab.1 ab.2⟩))

/-- Ordering of rationals by cross-multiplication (denominators are
positive), used so that sorting evaluates by kernel reduction. -/
def qLeb (a b : ℚ) : Bool := decide (a.num * (b.den : Int) ≤ b.num * (a.den : Int))

def insertQ (x : ℚ) : List ℚ → List ℚ
  | [] => [x]
  | y :: ys => if qLeb x y then x :: y :: ys else y :: insertQ x ys

def sortQ : List ℚ → List ℚ
  | [] => []
  | x :: xs => insertQ x (sortQ xs)

/-- The exact mean of two rationals, via `mkRat`. -/
def meanQ (a b : ℚ) : ℚ :=
  mkRat (a.num * (b.den : Int) + b.num * (a.den : Int)) (2 * (a.den * b.den))

/-- `Series.median`: middle element, or mean of the two middles. -/
def median (l : List ℚ) : ℚ :=
  let s := sortQ l
  let n := l.length
  if n % 2 == 1 then s.getD (n / 2) 0
  else meanQ (s.getD (n / 2 - 1) 0) (s.getD (n / 2) 0)

/-- Round half to even of the integer fraction a / b (b positive):
the exact model of Python `round` on these values. -/
def rheInt (a b : Int) : Int :=
  let f := Int.ediv a b
  let r2 := 2 * (a - f * b)
  if r2 < b then f
  else if b < r2 then f + 1
  else if Int.emod f 2 = 0 then f else f + 1

/-- Python `round(x, d)` (round half to even), exactly on rationals. -/
def roundQ (d : Nat) (q : ℚ) : ℚ :=
  mkRat (rheInt (q.num * ((10 ^ d : Nat) : Int)) (q.den : Int)) (10 ^ d)

def promotion_velocity (jobs : List JobRow) : List (String × VelocityStat) :=
  let ts := promoTransitions jobs
  let keys := dedupSortBy pairLTb (ts.map (fun t => (t.from_level, t.to_level)))
  keys.map (fun k =>
    let g := ts.filter (fun t => decide (t.from_level = k.1) && decide (t.to_level = k.2))
    (k.1 ++ " -> " ++ k.2,
     { median_months := roundQ 1 (median (g.map (fun t => t.gap_months))),
       sample_size := g.length,
       low_confidence := decide (g.length < 10) }))

/-! ### Role and industry transitions (src/analytics.py) -/

/-- The per-person ordered title sequences used by `role_transitions`
and `paths_to_role`: dropna on title, sort, group.  Jobs with missing or
unparseable start timestamps are NOT dropped here (missing starts sort
last). -/
def titleSeqs (jobs : List JobRow) : List (List String) :=
  (groupByPerson (sortJobs (jobs.filter (fun r => r.title.isSome)))).map
    (fun g => g.2.filterMap (fun r => r.title))

def roleTransPairs (jobs : List JobRow) : List (String × String) :=
  (titleSeqs jobs).flatMap adjPairs

/-- Shared output shaping of `role_transitions` / `industry_transitions`:
group by source key, `value_counts` on destinations, divide by the
group's `counts.sum()`, round to 4 decimals. -/
def probTable (pairs : List (String × String)) : List (String × List (String × ℚ)) :=
  let keys := dedupSortBy strLTb (pairs.map (fun p => p.1))
  keys.map (fun k =>
    let tos := (pairs.filter (fun p => decide (p.1 = k))).map (fun p => p.2)
    let counts := sortCountsDesc (countsFor tos)
    let total := sumSnd counts
    (k, counts.map (fun tc => (tc.1, roundQ 4 (mkRat (tc.2 : Int) total)))))

def role_transitions (jobs : List JobRow) : List (String × List (String × ℚ)) :=
  probTable (roleTransPairs jobs)

/-- Industry sequences: dropna on company_industry, sort, group. -/
def indSeqs (jobs : List JobRow) : List (List String) :=
  (groupByPerson (sortJobs (jobs.filter (fun r => r.company_industry.isSome)))).map
    (fun g => g.2.filterMap (fun r => r.company_industry))

/-- Unlike the role aggregation, equal adjacent industries are dropped. -/
def indTransPairs (jobs : List JobRow) : List (String × String) :=
  (indSeqs jobs).flatMap (fun s => (adjPairs s).filter (fun p => decide (p.1 ≠ p.2)))

def industry_transitions (jobs : List JobRow) : List (String × List (String × ℚ)) :=
  probTable (indTransPairs jobs)

/-! ### Major to first role (src/analytics.py, `major_to_first_role`) -/

/-- One accumulation step of SQL `MIN` over TEXT values (memcmp order,
i.e. code-point order). -/
def minAcc (acc : Option String) (s : String) : Option String :=
  match acc with
  | none => some s
  | some m => some (if strLTb s m then s else m)

def minStartOf (jobs : List JobRow) (p : String) : Option String :=
  ((jobs.filter (fun r =>
      decide (r.person_id = p) && r.started_at.isSome && r.title.isSome)).filterMap
    (fun r => r.started_at)).foldl minAcc none

/-- The first-jobs query: every jobs row with a non-null title whose
started_at equals the person's minimal qualifying start (ties keep every
tied row, one output row each). -/
def firstJobs (jobs : List JobRow) : List (String × String) :=
  jobs.filterMap (fun j =>
    match j.title, j.started_at with
    | some t, some s =>
      if minStartOf jobs j.person_id = some s then some (j.person_id, t) else none
    | _, _ => none)

def major_to_first_role (db : DB) : List (String × List (String × ℚ)) :=
  let fj := firstJobs db.jobs
  let ed := db.education.filterMap (fun e => e.field.map (fun f => (e.person_id, f)))
  if fj.isEmpty || ed.isEmpty then []
  else
    let merged : List (String × String) :=
      ed.flatMap (fun pf => (fj.filter (fun ft => decide (ft.1 = pf.1))).map (fun ft => (pf.2, ft.2)))
    let keys := dedupSortBy strLTb (merged.map (fun p => p.1))
    keys.map (fun k =>
      let titles := (merged.filter (fun p => decide (p.1 = k))).map (fun p => p.2)
      let top := (sortCountsDesc (countsFor titles)).take 10
      let total := sumSnd top
      (k, top.map (fun tc => (tc.1, roundQ 4 (mkRat (tc.2 : Int) total)))))

/-- The title multiset that `major_to_first_role` aggregates for one
field: for each education row with that field, all first-job titles of
that row's person (in first-jobs order).  Used to state what the
reported proportions are proportions of. -/
def fieldFirstTitles (db : DB) (k : String) : List String :=
  (db.education.filterMap (fun e => e.field.map (fun f => (e.person_id, f)))).flatMap
    (fun pf => if pf.2 = k
      then ((firstJobs db.jobs).filter (fun ft => decide (ft.1 = pf.1))).map (fun ft => ft.2)
      else [])

/-! ### Paths to role (src/analytics.py, `paths_to_role`) -/

/-- Keys of a dict in insertion (first-seen) order. -/
def firstSeen [DecidableEq α] (l : List α) : List α :=
  l.foldl (fun acc x => if x ∈ acc then acc else acc ++ [x]) []

def paths_to_role (jobs : List JobRow) : List (String × List (List String × Nat)) :=
  let seqs := (titleSeqs jobs).filter (fun ts => !ts.isEmpty)
  let finals := firstSeen (seqs.map (fun ts => ts.getLastD ""))
  finals.map (fun f =>
    let cnt := countsFor (seqs.filter (fun ts => decide (ts.getLastD "" = f)))
    (f, (sortCountsDesc cnt).take 5))

/-! ### compute_all and the payload (src/analytics.py, src/export.py) -/

inductive MetricOut where
  | velocity (v : List (String × VelocityStat))
  | probs (p : List (String × List (String × ℚ)))
  | paths (p : List (String × List (List String × Nat)))
deriving Repr, DecidableEq

def compute_all (db : DB) : List (String × MetricOut) :=
  [ ("promotion_velocity", .velocity (promotion_velocity db.jobs)),
    ("role_transitions", .probs (role_transitions db.jobs)),
    ("major_to_first_role", .probs (major_to_first_role db)),
    ("industry_transitions", .probs (industry_transitions db.jobs)),
    ("paths_to_role", .paths (paths_to_role db.jobs)) ]

structure Metadata where
  generated_at : String
  total_persons : Nat
  total_jobs : Nat
  data_files : List String
deriving Repr, DecidableEq

inductive PayloadVal where
  | meta (m : Metadata)
  | metric (m : MetricOut)
deriving Repr, DecidableEq

/-- `Path(f).name`: the last path component ('.' components and empty
components are dropped by PurePath parsing; POSIX paths). -/
def basename (f : String) : String :=
  ((f.splitOn "/").filter (fun c => !(c = "") && !(c = "."))).getLastD ""

/-- `build_payload` from src/export.py.  `generated_at` comes from the
standard library clock (`datetime.now(timezone.utc).isoformat()`),
modelled as the parameter `now`; the totals are `SELECT COUNT(*)` on
the persons and jobs tables. -/
def build_payload (metrics : List (String × MetricOut)) (db : DB) (now : String)
    (data_files : List String) : List (String × PayloadVal) :=
  ("metadata", .meta
    { generated_at := now,
      total_persons := db.persons.length,
      total_jobs := db.jobs.length,
      data_files := data_files.map basename }) ::
  metrics.map (fun kv => (kv.1, .metric kv.2))

/-! ## Lemma toolkit -/

theorem count_filter_of [DecidableEq α] (l : List α) (p : α → Bool) (a : α)
    (h : p a = true) : (l.filter p).count a = l.count a := by
  induction l with
  | nil => rfl
  | cons x xs ih =>
    by_cases hp : p x = true
    · simp [List.filter_cons, hp, List.count_cons, ih]
    · have hpf : p x = false := by revert hp; cases p x <;> simp
      have hx : ¬ x = a := fun he => by rw [he, h] at hpf; cases hpf
      simp [List.filter_cons, hpf, List.count_cons, ih, hx]

theorem adjPairs_mem (l : List α) (a b : α) (h : (a, b) ∈ adjPairs l) :
    a ∈ l ∧ b ∈ l := by
  induction l with
  | nil => cases h
  | cons x xs ih =>
    cases xs with
    | nil => cases h
    | cons y ys =>
      simp only [adjPairs, List.mem_cons] at h
      rcases h with h | h
      · rw [Prod.mk.injEq] at h
        obtain ⟨h1, h2⟩ := h
        subst h1; subst h2
        exact ⟨List.mem_cons_self _ _, List.mem_cons_of_mem _ (List.mem_cons_self _ _)⟩
      · have := ih h
        exact ⟨List.mem_cons_of_mem _ this.1, List.mem_cons_of_mem _ this.2⟩

/-! ### `countsFor` (Counter / value_counts) -/

theorem lookup_bump [DecidableEq α] (acc : List (α × Nat)) (k x : α) :
    (bump k acc).lookup x =
      if x = k then some ((acc.lookup x).getD 0 + 1) else acc.lookup x := by
  induction acc with
  | nil =>
    by_cases h : x = k
    · subst h; simp [bump, List.lookup]
    · have hb : (x == k) = false := beq_eq_false_iff_ne.mpr h
      simp [bump, List.lookup, hb, h]
  | cons y ys ih =>
    obtain ⟨k0, c0⟩ := y
    by_cases hk : k = k0
    · subst hk
      by_cases hx : x = k
      · subst hx; simp [bump, List.lookup]
      · have hb : (x == k) = false := beq_eq_false_iff_ne.mpr hx
        simp [bump, List.lookup, hb, hx]
    · have hbk : (k == k0) = false := beq_eq_false_iff_ne.mpr hk
      by_cases hx : x = k0
      · subst hx
        have hxk : ¬ x = k := fun he => hk he.symm
        simp [bump, List.lookup, hk, hxk]
      · have hb : (x == k0) = false := beq_eq_false_iff_ne.mpr hx
        simp [bump, List.lookup, hk, hb, ih]

theorem keys_bump [DecidableEq α] (acc : List (α × Nat)) (k : α) :
    (bump k acc).map Prod.fst = acc.map Prod.fst ∨
      (bump k acc).map Prod.fst = acc.map Prod.fst ++ [k] := by
  induction acc with
  | nil => right; rfl
  | cons y ys ih =>
    obtain ⟨k0, c0⟩ := y
    by_cases hk : k = k0
    · left; simp [bump, hk]
    · rcases ih with h | h
      · left; simp [bump, hk, h]
      · right; simp [bump, hk, h]

theorem nodup_keys_bump [DecidableEq α] (acc : List (α × Nat)) (k : α)
    (h : (acc.map Prod.fst).Nodup) : ((bump k acc).map Prod.fst).Nodup := by
  induction acc with
  | nil => simp [bump]
  | cons y ys ih =>
    obtain ⟨k0, c0⟩ := y
    simp only [List.map_cons, List.nodup_cons] at h
    by_cases hk : k = k0
    · simpa [bump, hk, List.nodup_cons] using h
    · have hmem : k0 ∉ (bump k ys).map Prod.fst := by
        rcases keys_bump ys k with he | he
        · rw [he]; exact h.1
        · rw [he]
          intro hc
          rcases List.mem_append.mp hc with hc | hc
          · exact h.1 hc
          · simp at hc; exact hk hc.symm
      simp only [bump, if_neg hk, List.map_cons, List.nodup_cons]
      exact ⟨hmem, ih h.2⟩

theorem pos_of_mem_bump [DecidableEq α] (acc : List (α × Nat)) (k : α)
    (h : ∀ e ∈ acc, 0 < e.2) : ∀ e ∈ bump k acc, 0 < e.2 := by
  induction acc with
  | nil =>
    intro e he; simp [bump] at he; subst he; simp
  | cons y ys ih =>
    obtain ⟨k0, c0⟩ := y
    intro e he
    by_cases hk : k = k0
    · simp [bump, hk] at he
      rcases he with he | he
      · subst he; simp
      · exact h e (List.mem_cons_of_mem _ he)
    · simp only [bump, if_neg hk] at he
      rcases List.mem_cons.mp he with he | he
      · subst he; exact h (k0, c0) (List.mem_cons_self _ _)
      · exact ih (fun e he => h e (List.mem_cons_of_mem _ he)) e he

theorem sumSnd_bump [DecidableEq α] (acc : List (α × Nat)) (k : α) :
    sumSnd (bump k acc) = sumSnd acc + 1 := by
  induction acc with
  | nil => rfl
  | cons y ys ih =>
    obtain ⟨k0, c0⟩ := y
    by_cases hk : k = k0
    · simp [bump, hk, sumSnd]; omega
    · simp [bump, hk, sumSnd, ih]; omega

theorem countsFor_invariant [DecidableEq α] (l : List α) (acc : List (α × Nat)) :
    (∀ x, ((l.foldl (fun a k => bump k a) acc).lookup x).getD 0 =
        (acc.lookup x).getD 0 + l.count x) ∧
    ((acc.map Prod.fst).Nodup → ((l.foldl (fun a k => bump k a) acc).map Prod.fst).Nodup) ∧
    ((∀ e ∈ acc, 0 < e.2) → (∀ e ∈ l.foldl (fun a k => bump k a) acc, 0 < e.2)) ∧
    (sumSnd (l.foldl (fun a k => bump k a) acc) = sumSnd acc + l.length) := by
  induction l generalizing acc with
  | nil => exact ⟨fun x => by simp, fun h => h, fun h => h, by simp⟩
  | cons y ys ih =>
    refine ⟨fun x => ?_, fun h => ?_, fun h => ?_, ?_⟩
    · have h1 := (ih (bump y acc)).1 x
      simp only [List.foldl_cons] at h1 ⊢
      rw [h1, lookup_bump]
      by_cases hx : x = y
      · subst hx; simp [List.count_cons]; omega
      · simp [hx, List.count_cons, Ne.symm hx]
    · exact (ih (bump y acc)).2.1 (nodup_keys_bump acc y h)
    · exact (ih (bump y acc)).2.2.1 (pos_of_mem_bump acc y h)
    · have h4 := (ih (bump y acc)).2.2.2
      simp only [List.foldl_cons] at h4 ⊢
      rw [h4, sumSnd_bump]; simp; omega

theorem lookup_countsFor [DecidableEq α] (l : List α) (x : α) :
    ((countsFor l).lookup x).getD 0 = l.count x := by
  have := (countsFor_invariant l []).1 x
  simpa [countsFor, List.lookup] using this

theorem nodup_keys_countsFor [DecidableEq α] (l : List α) :
    ((countsFor l).map Prod.fst).Nodup := by
  exact (countsFor_invariant l []).2.1 (by simp)

theorem pos_of_mem_countsFor [DecidableEq α] (l : List α) :
    ∀ e ∈ countsFor l, 0 < e.2 := by
  exact (countsFor_invariant l []).2.2.1 (by simp)

theorem sumSnd_countsFor [DecidableEq α] (l : List α) :
    sumSnd (countsFor l) = l.length := by
  have := (countsFor_invariant l []).2.2.2
  simpa [countsFor, sumSnd] using this

/-- With distinct keys, membership and lookup coincide. -/
theorem lookup_eq_of_mem_nodup [DecidableEq α] (l : List (α × β)) (k : α) (v : β)
    (hnd : (l.map Prod.fst).Nodup) (h : (k, v) ∈ l) : l.lookup k = some v := by
  induction l with
  | nil => cases h
  | cons y ys ih =>
    obtain ⟨k0, v0⟩ := y
    simp only [List.map_cons, List.nodup_cons] at hnd
    rcases List.mem_cons.mp h with h | h
    · rw [Prod.mk.injEq] at h
      obtain ⟨h1, h2⟩ := h
      subst h1; subst h2
      simp [List.lookup]
    · have hk : ¬ k0 = k := by
        intro he; subst he
        exact hnd.1 (List.mem_map.mpr ⟨(k0, v), h, rfl⟩)
      have hb : (k == k0) = false := beq_eq_false_iff_ne.mpr (fun he => hk he.symm)
      simp [List.lookup, hb, ih hnd.2 h]

theorem mem_of_lookup_eq_some [DecidableEq α] (l : List (α × β)) (k : α) (v : β)
    (h : l.lookup k = some v) : (k, v) ∈ l := by
  induction l with
  | nil => cases h
  | cons y ys ih =>
    obtain ⟨k0, v0⟩ := y
    by_cases hk : k0 = k
    · subst hk
      simp [List.lookup] at h
      subst h; exact List.mem_cons_self _ _
    · have hb : (k == k0) = false := beq_eq_false_iff_ne.mpr (fun he => hk he.symm)
      simp [List.lookup, hb] at h
      exact List.mem_cons_of_mem _ (ih h)

/-- The count recorded for a key is its multiplicity, and is positive. -/
theorem mem_countsFor [DecidableEq α] (l : List α) (k : α) (c : Nat)
    (h : (k, c) ∈ countsFor l) : c = l.count k ∧ 0 < c := by
  have hl := lookup_eq_of_mem_nodup _ _ _ (nodup_keys_countsFor l) h
  have := lookup_countsFor l k
  rw [hl] at this
  simp at this
  exact ⟨this ▸ rfl, pos_of_mem_countsFor l _ h⟩

/-! ### `sortCountsDesc` (value_counts order / most_common) -/

theorem mem_insertDesc (x y : α × Nat) (l : List (α × Nat)) :
    y ∈ insertDesc x l ↔ y = x ∨ y ∈ l := by
  induction l with
  | nil => simp [insertDesc]
  | cons z zs ih =>
    by_cases h : z.2 ≤ x.2
    · simp [insertDesc, h]
    · simp [insertDesc, h, List.mem_cons, ih]
      tauto

theorem mem_sortCountsDesc (x : α × Nat) (l : List (α × Nat)) :
    x ∈ sortCountsDesc l ↔ x ∈ l := by
  induction l with
  | nil => simp [sortCountsDesc]
  | cons z zs ih => simp [sortCountsDesc, mem_insertDesc, ih]

theorem pairwise_insertDesc (x : α × Nat) (l : List (α × Nat))
    (h : l.Pairwise (fun a b => b.2 ≤ a.2)) :
    (insertDesc x l).Pairwise (fun a b => b.2 ≤ a.2) := by
  induction l with
  | nil => simp [insertDesc]
  | cons z zs ih =>
    rcases List.pairwise_cons.mp h with ⟨hz, hzs⟩
    by_cases hle : z.2 ≤ x.2
    · rw [insertDesc, if_pos hle]
      refine List.pairwise_cons.mpr ⟨?_, h⟩
      intro b hb
      rcases List.mem_cons.mp hb with rfl | hb
      · exact hle
      · exact le_trans (hz b hb) hle
    · rw [insertDesc, if_neg hle]
      refine List.pairwise_cons.mpr ⟨?_, ih hzs⟩
      intro b hb
      rcases (mem_insertDesc x b zs).mp hb with rfl | hb
      · exact le_of_not_le hle
      · exact hz b hb

theorem pairwise_sortCountsDesc (l : List (α × Nat)) :
    (sortCountsDesc l).Pairwise (fun a b => b.2 ≤ a.2) := by
  induction l with
  | nil => simp [sortCountsDesc]
  | cons z zs ih => exact pairwise_insertDesc z (sortCountsDesc zs) ih

theorem sumSnd_insertDesc (x : α × Nat) (l : List (α × Nat)) :
    sumSnd (insertDesc x l) = x.2 + sumSnd l := by
  induction l with
  | nil => rfl
  | cons z zs ih =>
    by_cases h : z.2 ≤ x.2
    · simp [insertDesc, h, sumSnd]
    · simp [insertDesc, h, sumSnd, ih]; omega

theorem sumSnd_sortCountsDesc (l : List (α × Nat)) :
    sumSnd (sortCountsDesc l) = sumSnd l := by
  induction l with
  | nil => rfl
  | cons z zs ih => simp [sortCountsDesc, sumSnd_insertDesc, sumSnd, ih]

/-! ### `insKey` / `dedupSortBy` (sorted groupby keys) -/

theorem mem_insKey (ltb : α → α → Bool) (x z : α) (l : List α)
    (tricho : ∀ a b, ltb a b = false → ltb b a = false → a = b) :
    z ∈ insKey ltb x l ↔ z = x ∨ z ∈ l := by
  induction l with
  | nil => simp [insKey]
  | cons y ys ih =>
    by_cases h1 : ltb x y = true
    · simp [insKey, h1]
    · by_cases h2 : ltb y x = true
      · have h1f : ltb x y = false := by revert h1; cases ltb x y <;> simp
        simp [insKey, h1f, h2, List.mem_cons, ih]
        tauto
      · have h1f : ltb x y = false := by revert h1; cases ltb x y <;> simp
        have h2f : ltb y x = false := by revert h2; cases ltb y x <;> simp
        have hxy : x = y := tricho x y h1f h2f
        subst hxy
        simp [insKey, h1f, List.mem_cons]

theorem pairwise_insKey (ltb : α → α → Bool) (x : α) (l : List α)
    (htrans : ∀ a b c, ltb a b = true → ltb b c = true → ltb a c = true)
    (tricho : ∀ a b, ltb a b = false → ltb b a = false → a = b)
    (h : l.Pairwise (fun a b => ltb a b = true)) :
    (insKey ltb x l).Pairwise (fun a b => ltb a b = true) := by
  induction l with
  | nil => simp [insKey]
  | cons y ys ih =>
    rcases List.pairwise_cons.mp h with ⟨hy, hys⟩
    by_cases h1 : ltb x y = true
    · rw [insKey, if_pos h1]
      refine List.pairwise_cons.mpr ⟨?_, h⟩
      intro b hb
      rcases List.mem_cons.mp hb with rfl | hb
      · exact h1
      · exact htrans x y b h1 (hy b hb)
    · by_cases h2 : ltb y x = true
      · have h1f : ltb x y = false := by revert h1; cases ltb x y <;> simp
        rw [insKey, if_neg (by simp [h1f]), if_pos h2]
        refine List.pairwise_cons.mpr ⟨?_, ih hys⟩
        intro b hb
        rcases (mem_insKey ltb x b ys tricho).mp hb with rfl | hb
        · exact h2
        · exact hy b hb
      · have h1f : ltb x y = false := by revert h1; cases ltb x y <;> simp
        have h2f : ltb y x = false := by revert h2; cases ltb y x <;> simp
        simpa [insKey, h1f, h2f] using h

theorem nodup_of_pairwise_ltb (ltb : α → α → Bool) (l : List α)
    (hasym : ∀ a b, ltb a b = true → ltb b a = false)
    (h : l.Pairwise (fun a b => ltb a b = true)) : l.Nodup := by
  refine h.imp ?_
  intro a b hab
  intro he
  subst he
  have := hasym a a hab
  rw [this] at hab
  cases hab

theorem dedupSortBy_invariant (ltb : α → α → Bool) (l : List α) (acc : List α)
    (htrans : ∀ a b c, ltb a b = true → ltb b c = true → ltb a c = true)
    (tricho : ∀ a b, ltb a b = false → ltb b a = false → a = b)
    (hacc : acc.Pairwise (fun a b => ltb a b = true)) :
    (dedupSortBy ltb l = l.foldl (fun a x => insKey ltb x a) acc → True) ∧
    ((l.foldl (fun a x => insKey ltb x a) acc).Pairwise (fun a b => ltb a b = true)) ∧
    (∀ z, z ∈ l.foldl (fun a x => insKey ltb x a) acc ↔ z ∈ acc ∨ z ∈ l) := by
  induction l generalizing acc with
  | nil => exact ⟨fun _ => trivial, hacc, fun z => by simp⟩
  | cons y ys ih =>
    have hacc' := pairwise_insKey ltb y acc htrans tricho hacc
    refine ⟨fun _ => trivial, (ih (insKey ltb y acc) hacc').2.1, fun z => ?_⟩
    have hm := (ih (insKey ltb y acc) hacc').2.2 z
    simp only [List.foldl_cons] at hm ⊢
    rw [hm, mem_insKey ltb y z acc tricho]
    simp [List.mem_cons]
    tauto

theorem pairwise_dedupSortBy (ltb : α → α → Bool) (l : List α)
    (htrans : ∀ a b c, ltb a b = true → ltb b c = true → ltb a c = true)
    (tricho : ∀ a b, ltb a b = false → ltb b a = false → a = b) :
    (dedupSortBy ltb l).Pairwise (fun a b => ltb a b = true) :=
  (dedupSortBy_invariant ltb l [] htrans tricho (by simp)).2.1

theorem mem_dedupSortBy (ltb : α → α → Bool) (l : List α) (z : α)
    (htrans : ∀ a b c, ltb a b = true → ltb b c = true → ltb a c = true)
    (tricho : ∀ a b, ltb a b = false → ltb b a = false → a = b) :
    z ∈ dedupSortBy ltb l ↔ z ∈ l := by
  have := (dedupSortBy_invariant ltb l [] htrans tricho (by simp)).2.2 z
  simpa [dedupSortBy] using this

/-! ### `firstSeen` (dict insertion order) -/

theorem firstSeen_invariant [DecidableEq α] (l : List α) (acc : List α)
    (hacc : acc.Nodup) :
    (l.foldl (fun a x => if x ∈ a then a else a ++ [x]) acc).Nodup ∧
    (∀ z, z ∈ l.foldl (fun a x => if x ∈ a then a else a ++ [x]) acc ↔ z ∈ acc ∨ z ∈ l) := by
  induction l generalizing acc with
  | nil => exact ⟨hacc, fun z => by simp⟩
  | cons y ys ih =>
    by_cases hy : y ∈ acc
    · have h := ih acc hacc
      refine ⟨by simpa [hy] using h.1, fun z => ?_⟩
      have := h.2 z
      simp only [List.foldl_cons, if_pos hy] at this ⊢
      rw [this]
      constructor
      · tauto
      · rintro (hz | hz)
        · exact Or.inl hz
        · rcases List.mem_cons.mp hz with rfl | hz
          · exact Or.inl hy
          · exact Or.inr hz
    · have hacc' : (acc ++ [y]).Nodup := by
        rw [List.nodup_append]
        refine ⟨hacc, List.nodup_singleton y, ?_⟩
        intro a ha hb
        rw [List.mem_singleton] at hb
        subst hb
        exact hy ha
      have h := ih (acc ++ [y]) hacc'
      refine ⟨by simpa [hy] using h.1, fun z => ?_⟩
      have := h.2 z
      simp only [List.foldl_cons, if_neg hy] at this ⊢
      rw [this]
      simp [List.mem_append, List.mem_cons]
      tauto

theorem nodup_firstSeen [DecidableEq α] (l : List α) : (firstSeen l).Nodup :=
  (firstSeen_invariant l [] List.nodup_nil).1

theorem mem_firstSeen [DecidableEq α] (l : List α) (z : α) :
    z ∈ firstSeen l ↔ z ∈ l := by
  have := (firstSeen_invariant l [] List.nodup_nil).2 z
  simpa [firstSeen] using this

/-! ### Comparator facts for the groupby key orders -/

theorem strLtChars_trans : ∀ as bs cs : List Char, strLtChars as bs = true →
    strLtChars bs cs = true → strLtChars as cs = true := by
  intro as
  induction as with
  | nil =>
    intro bs cs h1 h2
    cases bs with
    | nil => cases h1
    | cons b bs =>
      cases cs with
      | nil => cases h2
      | cons c cs => rfl
  | cons a as ih =>
    intro bs cs h1 h2
    cases bs with
    | nil => cases h1
    | cons b bs =>
      cases cs with
      | nil => cases h2
      | cons c cs =>
        simp only [strLtChars] at h1 h2 ⊢
        by_cases hab : a < b
        · simp only [hab, if_pos] at h1
          by_cases hbc : b < c
          · simp [lt_trans hab hbc]
          · by_cases hcb : c < b
            · simp [hbc, hcb] at h2
            · have : b = c := le_antisymm (not_lt.mp hcb) (not_lt.mp hbc)
              subst this
              simp [hab]
        · by_cases hba : b < a
          · simp [hab, hba] at h1
          · have hae : a = b := le_antisymm (not_lt.mp hba) (not_lt.mp hab)
            subst hae
            rw [if_neg (lt_irrefl a), if_neg (lt_irrefl a)] at h1
            by_cases hac : a < c
            · simp [hac]
            · by_cases hca : c < a
              · simp [hac, hca] at h2
              · simp only [if_neg hac, if_neg hca] at h2 ⊢
                exact ih bs cs h1 h2

theorem strLtChars_asym : ∀ as bs : List Char, strLtChars as bs = true →
    strLtChars bs as = false := by
  intro as
  induction as with
  | nil =>
    intro bs h
    cases bs with
    | nil => cases h
    | cons b bs => rfl
  | cons a as ih =>
    intro bs h
    cases bs with
    | nil => cases h
    | cons b bs =>
      simp only [strLtChars] at h ⊢
      by_cases hab : a < b
      · simp [lt_asymm hab, hab]
      · by_cases hba : b < a
        · simp [hab, hba] at h
        · simp only [if_neg hab, if_neg hba] at h ⊢
          exact ih bs h

theorem strLtChars_tricho : ∀ as bs : List Char, strLtChars as bs = false →
    strLtChars bs as = false → as = bs := by
  intro as
  induction as with
  | nil =>
    intro bs h1 h2
    cases bs with
    | nil => rfl
    | cons b bs => cases h1
  | cons a as ih =>
    intro bs h1 h2
    cases bs with
    | nil => cases h2
    | cons b bs =>
      simp only [strLtChars] at h1 h2
      by_cases hab : a < b
      · simp [hab] at h1
      · by_cases hba : b < a
        · simp [hab, hba] at h2
        · have hae : a = b := le_antisymm (not_lt.mp hba) (not_lt.mp hab)
          subst hae
          simp only [if_neg (lt_irrefl a)] at h1 h2
          rw [ih bs h1 h2]

theorem strLTb_trans : ∀ a b c : String, strLTb a b = true → strLTb b c = true →
    strLTb a c = true := fun a b c h1 h2 => strLtChars_trans a.data b.data c.data h1 h2

theorem strLTb_asym : ∀ a b : String, strLTb a b = true → strLTb b a = false :=
  fun a b h => strLtChars_asym a.data b.data h

theorem strLTb_tricho : ∀ a b : String, strLTb a b = false → strLTb b a = false →
    a = b := by
  intro a b h1 h2
  have hd : a.data = b.data := strLtChars_tricho a.data b.data h1 h2
  cases a; cases b
  exact congrArg String.mk hd

theorem strLTb_irrefl (a : String) : strLTb a a = false := by
  cases hb : strLTb a a
  · rfl
  · exact absurd (strLTb_asym a a hb) (by simp [hb])

theorem strLTb_ne : ∀ a b : String, strLTb a b = true → ¬ a = b := by
  intro a b h he
  subst he
  rw [strLTb_irrefl a] at h
  cases h

theorem pairLTb_trans : ∀ a b c : String × String, pairLTb a b = true →
    pairLTb b c = true → pairLTb a c = true := by
  intro a b c h1 h2
  simp only [pairLTb, Bool.or_eq_true, Bool.and_eq_true, decide_eq_true_eq] at h1 h2 ⊢
  rcases h1 with h1 | ⟨h1e, h1s⟩
  · rcases h2 with h2 | ⟨h2e, h2s⟩
    · exact Or.inl (strLTb_trans _ _ _ h1 h2)
    · exact Or.inl (h2e ▸ h1)
  · rcases h2 with h2 | ⟨h2e, h2s⟩
    · exact Or.inl (h1e ▸ h2)
    · exact Or.inr ⟨h1e.trans h2e, strLTb_trans _ _ _ h1s h2s⟩

theorem pairLTb_tricho : ∀ a b : String × String, pairLTb a b = false →
    pairLTb b a = false → a = b := by
  intro a b h1 h2
  simp only [pairLTb, Bool.or_eq_false_iff, Bool.and_eq_false_iff,
    decide_eq_false_iff_not] at h1 h2
  have he : a.1 = b.1 := strLTb_tricho a.1 b.1 h1.1 h2.1
  have hs : a.2 = b.2 := by
    rcases h1.2 with hc | hc
    · exact absurd he hc
    · rcases h2.2 with hc2 | hc2
      · exact absurd he.symm hc2
      · exact strLTb_tricho a.2 b.2 hc hc2
  exact Prod.ext he hs

/-! ### Lookup in a keyed output table -/

theorem lookup_map_keys (keys : List α) (fk : α → String) (fv : α → β)
    (k0 : α) (hmem : k0 ∈ keys) (hnd : keys.Nodup)
    (hinj : ∀ k ∈ keys, fk k = fk k0 → k = k0) :
    (keys.map (fun k => (fk k, fv k))).lookup (fk k0) = some (fv k0) := by
  induction keys with
  | nil => cases hmem
  | cons y ys ih =>
    rcases List.mem_cons.mp hmem with rfl | hmem
    · simp [List.lookup]
    · have hyne : ¬ y = k0 := by
        intro he
        exact (List.nodup_cons.mp hnd).1 (he ▸ hmem)
      have hne : ¬ (fk k0 = fk y) := by
        intro he
        exact hyne (hinj y (List.mem_cons_self _ _) he.symm)
      have hb : (fk k0 == fk y) = false := beq_eq_false_iff_ne.mpr hne
      simp only [List.map_cons, List.lookup, hb]
      exact ih hmem (List.nodup_cons.mp hnd).2
        (fun k hk he => hinj k (List.mem_cons_of_mem _ hk) he)

theorem lookup_map_keys_inv (keys : List α) (fk : α → String) (fv : α → β)
    (key : String) (m : β)
    (h : (keys.map (fun k => (fk k, fv k))).lookup key = some m) :
    ∃ k0 ∈ keys, fk k0 = key ∧ m = fv k0 := by
  induction keys with
  | nil => cases h
  | cons y ys ih =>
    by_cases hy : key = fk y
    · subst hy
      simp [List.lookup] at h
      exact ⟨y, List.mem_cons_self _ _, rfl, h.symm⟩
    · have hb : (key == fk y) = false := beq_eq_false_iff_ne.mpr hy
      simp only [List.map_cons, List.lookup, hb] at h
      obtain ⟨k0, hk0, he, hm⟩ := ih h
      exact ⟨k0, List.mem_cons_of_mem _ hk0, he, hm⟩

/-! ### Membership through the sorts and groupby -/

theorem mem_insertAsc (x z : JobRow) (l : List JobRow) :
    z ∈ insertAsc x l ↔ z = x ∨ z ∈ l := by
  induction l with
  | nil => simp [insertAsc]
  | cons y ys ih =>
    by_cases h : keyLTb y x = true
    · simp [insertAsc, h, List.mem_cons, ih]
      tauto
    · have hf : keyLTb y x = false := by revert h; cases keyLTb y x <;> simp
      simp [insertAsc, hf, List.mem_cons]

theorem mem_sortJobs (z : JobRow) (l : List JobRow) : z ∈ sortJobs l ↔ z ∈ l := by
  induction l with
  | nil => simp [sortJobs]
  | cons y ys ih => simp [sortJobs, mem_insertAsc, ih]

theorem mem_insertAscD (x z : JobRow) (l : List JobRow) :
    z ∈ insertAscD x l ↔ z = x ∨ z ∈ l := by
  induction l with
  | nil => simp [insertAscD]
  | cons y ys ih =>
    by_cases h : keyLTbD y x = true
    · simp [insertAscD, h, List.mem_cons, ih]
      tauto
    · have hf : keyLTbD y x = false := by revert h; cases keyLTbD y x <;> simp
      simp [insertAscD, hf, List.mem_cons]

theorem mem_sortJobsD (z : JobRow) (l : List JobRow) : z ∈ sortJobsD l ↔ z ∈ l := by
  induction l with
  | nil => simp [sortJobsD]
  | cons y ys ih => simp [sortJobsD, mem_insertAscD, ih]

theorem groupByPerson_rows (rows : List JobRow) (g : String × List JobRow)
    (hg : g ∈ groupByPerson rows) :
    g.2 = rows.filter (fun r => decide (r.person_id = g.1)) := by
  obtain ⟨p, hp, he⟩ := List.mem_map.mp hg
  cases he
  rfl

theorem mem_groupByPerson_self (rows : List JobRow) (r : JobRow) (h : r ∈ rows) :
    ∃ g ∈ groupByPerson rows, r ∈ g.2 := by
  refine ⟨(r.person_id, rows.filter (fun q => decide (q.person_id = r.person_id))), ?_, ?_⟩
  · apply List.mem_map.mpr
    refine ⟨r.person_id, ?_, rfl⟩
    rw [mem_dedupSortBy strLTb _ _ strLTb_trans strLTb_tricho]
    exact List.mem_map.mpr ⟨r, h, rfl⟩
  · exact List.mem_filter.mpr ⟨h, by simp⟩

/-! ## Claim C2: level normalization priority -/

theorem applyRules_unknown (rules : List (List (List PatTok) × String)) (s : String)
    (h : ∀ r ∈ rules, regexSearch r.1 s = false) : applyRules rules s = "Unknown" := by
  induction rules with
  | nil => rfl
  | cons r rs ih =>
    obtain ⟨alts, lvl⟩ := r
    have h1 := h (alts, lvl) (List.mem_cons_self _ _)
    simp only [applyRules, h1, Bool.false_eq_true, if_false]
    exact ih (fun r hr => h r (List.mem_cons_of_mem _ hr))

theorem applyRules_first (pre post : List (List (List PatTok) × String))
    (alts : List (List PatTok)) (lvl : String) (s : String)
    (hpre : ∀ r ∈ pre, regexSearch r.1 s = false)
    (hhit : regexSearch alts s = true) :
    applyRules (pre ++ (alts, lvl) :: post) s = lvl := by
  induction pre with
  | nil => simp [applyRules, hhit]
  | cons r rs ih =>
    obtain ⟨a0, l0⟩ := r
    have h1 := hpre (a0, l0) (List.mem_cons_self _ _)
    simp only [List.cons_append, applyRules, h1, Bool.false_eq_true, if_false]
    exact ih (fun r hr => hpre r (List.mem_cons_of_mem _ hr))

/-- C2 (amended): `normalize_level` applies the case-insensitive keyword
rules in the fixed priority order C-Suite, VP, Director, Manager, Staff,
Senior, IC and returns the level of the first rule whose pattern
matches; `None`, the empty string, or an input matching no rule yields
"Unknown".  In particular a title that matches the Director pattern and
no higher-priority (C-Suite or VP) pattern resolves to Director, even
when it also contains "Senior" — e.g. "Senior Director".  (The original
universal statement over all titles containing the substrings "Senior"
and "Director" is false: a title may also contain a higher-priority
keyword, or contain "Director" only without word boundaries; see the
counterexample.) -/
theorem C2_theorem :
    (∀ (s : String) (pre post : List (List (List PatTok) × String))
        (alts : List (List PatTok)) (lvl : String),
        s ≠ "" → levelRules = pre ++ (alts, lvl) :: post →
        (∀ r ∈ pre, regexSearch r.1 s = false) → regexSearch alts s = true →
        normalize_level (some s) = lvl) ∧
    (∀ s : String, (∀ r ∈ levelRules, regexSearch r.1 s = false) →
        normalize_level (some s) = "Unknown") ∧
    normalize_level none = "Unknown" ∧
    normalize_level (some "") = "Unknown" ∧
    (∀ s : String, s ≠ "" → regexSearch directorAlts s = true →
        regexSearch csuiteAlts s = false → regexSearch vpAlts s = false →
        normalize_level (some s) = "Director") := by
  have hfirst : ∀ (s : String) (pre post : List (List (List PatTok) × String))
      (alts : List (List PatTok)) (lvl : String),
      s ≠ "" → levelRules = pre ++ (alts, lvl) :: post →
      (∀ r ∈ pre, regexSearch r.1 s = false) → regexSearch alts s = true →
      normalize_level (some s) = lvl := by
    intro s pre post alts lvl hne heq hpre hhit
    simp only [normalize_level, if_neg hne]
    rw [heq]
    exact applyRules_first pre post alts lvl s hpre hhit
  refine ⟨hfirst, ?_, rfl, rfl, ?_⟩
  · intro s h
    by_cases hne : s = ""
    · subst hne; rfl
    · simp only [normalize_level, if_neg hne]
      exact applyRules_unknown levelRules s h
  · intro s hne hdir hcs hvp
    refine hfirst s [(csuiteAlts, "C-Suite"), (vpAlts, "VP")]
      [(managerAlts, "Manager"), (staffAlts, "Staff"), (seniorAlts, "Senior"),
       (icAlts, "IC")] directorAlts "Director" hne rfl ?_ hdir
    intro r hr
    rcases List.mem_cons.mp hr with rfl | hr
    · exact hcs
    · rcases List.mem_cons.mp hr with rfl | hr
      · exact hvp
      · cases hr

/-- Witness for C2: "Senior Director" matches the Director rule and no
higher-priority rule, so it resolves to Director, not Senior. -/
theorem C2_theorem_witness :
    normalize_level (some "Senior Director") = "Director" :=
  C2_theorem.2.2.2.2 "Senior Director" (by decide) (by decide) (by decide) (by decide)

/-- C2 (counterexample): "Chief Senior Director" contains both "Senior"
and "Director" as substrings, yet `normalize_level` returns "C-Suite"
(the C-Suite rule fires first on "Chief"), refuting the claim that every
such title resolves to Director. -/
theorem C2_counterexample :
    strContains "Chief Senior Director" "Senior" = true ∧
    strContains "Chief Senior Director" "Director" = true ∧
    normalize_level (some "Chief Senior Director") = "C-Suite" ∧
    ("C-Suite" : String) ≠ "Director" :=
  ⟨by decide, by decide, by decide, by decide⟩

/-! ## Claim C7: line-level failure policy of `ingest_file` -/

/-- C7 (amended): during ingestion of one file, a line that is malformed
JSON, or whose decoded record is a JSON object missing the "id" field
(KeyError), is skipped and counted without aborting the file; blank
lines are ignored without counting; a successfully loaded record counts
as loaded; and for a 3-line input file whose line 2 is not valid JSON
the result is loaded = 2, skipped = 1 with no exception.  (The original
claim also asserted that any record "failing to parse as valid
structured input" is skipped; that part is false — a line that is valid
JSON but not an object raises an uncaught TypeError that aborts the
file, see the counterexample.) -/
theorem C7_theorem :
    (∀ (rest : List LineParse) (st : StoreJ),
        ingest_file (.badJson :: rest) st =
          (ingest_file rest st).map (fun r => ((r.1.1, r.1.2 + 1), r.2))) ∧
    (∀ (fields : List (String × JValue)) (rest : List LineParse) (st : StoreJ),
        dictGet fields "id" = none →
        ingest_file (.record (.obj fields) :: rest) st =
          (ingest_file rest st).map (fun r => ((r.1.1, r.1.2 + 1), r.2))) ∧
    (∀ (v : JValue) (rest : List LineParse) (st st' : StoreJ),
        load_record v st = .ok st' →
        ingest_file (.record v :: rest) st =
          (ingest_file rest st').map (fun r => ((r.1.1 + 1, r.1.2), r.2))) ∧
    (∀ (rest : List LineParse) (st : StoreJ),
        ingest_file (.blank :: rest) st = ingest_file rest st) ∧
    ((ingest_file
        [.record (.obj [("id", .str "ok"), ("jobs", .arr []),
                        ("education", .arr []), ("changes", .obj [])]),
         .badJson,
         .record (.obj [("id", .str "ok2"), ("jobs", .arr []),
                        ("education", .arr []), ("changes", .obj [])])]
        emptyStoreJ).map (fun r => r.1) = .ok (2, 1)) := by
  refine ⟨fun rest st => rfl, ?_, ?_, fun rest st => rfl, rfl⟩
  · intro fields rest st h
    have hlr : load_record (.obj fields) st = .error .keyError := by
      simp [load_record, h]
    simp [ingest_file, hlr]
  · intro v rest st st' h
    simp [ingest_file, h]

/-- Witness for C7: a record missing "id" is skipped and counted. -/
theorem C7_theorem_witness :
    ingest_file [.record (.obj [("name", .str "x")])] emptyStoreJ =
      (ingest_file [] emptyStoreJ).map (fun r => ((r.1.1, r.1.2 + 1), r.2)) :=
  C7_theorem.2.1 [("name", .str "x")] [] emptyStoreJ rfl

/-- C7 (counterexample): a line that is valid JSON but not an object
(here the number 42) raises an uncaught TypeError at `record["id"]`,
aborting the whole file instead of being skipped and counted — with this
3-line file, `ingest_file` raises instead of returning loaded = 2,
skipped = 1. -/
theorem C7_counterexample :
    ingest_file
      [.record (.obj [("id", .str "ok"), ("jobs", .arr []),
                      ("education", .arr []), ("changes", .obj [])]),
       .record (.num 42),
       .record (.obj [("id", .str "ok2"), ("jobs", .arr []),
                      ("education", .arr []), ("changes", .obj [])])]
      emptyStoreJ = .error .typeError := rfl

/-! ## Claim C6: duration / tenure resolution -/

theorem extractJob_duration (jf : List (String × JValue)) (pid : SqlVal) (row : JobRowJ)
    (h : extractJob pid (.obj jf) = .ok row) :
    durationResolve ((dictGet jf "duration").getD .null)
        ((dictGet jf "started_at").getD .null) ((dictGet jf "ended_at").getD .null)
      = .ok row.duration_months ∧
    durationResolve ((dictGet jf "company_tenure").getD .null)
        ((dictGet jf "started_at").getD .null) ((dictGet jf "ended_at").getD .null)
      = .ok row.company_tenure_months := by
  simp only [extractJob, bind, Except.bind] at h
  repeat' split at h
  all_goals cases h
  all_goals exact ⟨by assumption, by assumption⟩

/-- C6 (amended): the stored duration (and company tenure) equals the
pre-supplied integer count when one is present and truthy — i.e.
nonzero; a pre-supplied 0 (or other falsy value) is ignored because the
source uses Python `or`.  Otherwise it is computed by `months_between`:
`max 0 ((ey - sy) * 12 + (em - sm))` of the parsed year/month slices,
and it is None when either timestamp is missing, empty, or malformed
(a slice that `int()` rejects). -/
theorem C6_theorem :
    (∀ (jf : List (String × JValue)) (pid : SqlVal) (row : JobRowJ) (n : Int),
        extractJob pid (.obj jf) = .ok row →
        dictGet jf "duration" = some (.num n) → n ≠ 0 →
        row.duration_months = .int n) ∧
    (∀ (jf : List (String × JValue)) (pid : SqlVal) (row : JobRowJ) (n : Int),
        extractJob pid (.obj jf) = .ok row →
        dictGet jf "company_tenure" = some (.num n) → n ≠ 0 →
        row.company_tenure_months = .int n) ∧
    (∀ (jf : List (String × JValue)) (pid : SqlVal) (row : JobRowJ),
        extractJob pid (.obj jf) = .ok row →
        truthy ((dictGet jf "duration").getD .null) = false →
        ((months_between_py ((dictGet jf "started_at").getD .null)
            ((dictGet jf "ended_at").getD .null) = .ok none →
          row.duration_months = .null) ∧
         (∀ m : Int, months_between_py ((dictGet jf "started_at").getD .null)
            ((dictGet jf "ended_at").getD .null) = .ok (some m) →
          row.duration_months = .int m))) ∧
    (∀ (ss es : String) (sy sm ey em : Int),
        ¬ ss = "" → ¬ es = "" →
        pyInt (ss.data.take 4) = some sy → pyInt ((ss.data.drop 5).take 2) = some sm →
        pyInt (es.data.take 4) = some ey → pyInt ((es.data.drop 5).take 2) = some em →
        months_between (some ss) (some es) = some (max 0 ((ey - sy) * 12 + (em - sm)))) ∧
    (∀ e, months_between none e = none) ∧
    (∀ s, months_between s none = none) ∧
    (∀ es, months_between (some "") es = none) ∧
    (∀ ss, months_between ss (some "") = none) ∧
    (∀ ss es : String,
        (pyInt (ss.data.take 4) = none ∨ pyInt ((ss.data.drop 5).take 2) = none ∨
         pyInt (es.data.take 4) = none ∨ pyInt ((es.data.drop 5).take 2) = none) →
        months_between (some ss) (some es) = none) := by
  refine ⟨?_, ?_, ?_, ?_, fun e => rfl, ?_, ?_, ?_, ?_⟩
  · intro jf pid row n hex hd hn
    have hdur := (extractJob_duration jf pid row hex).1
    rw [hd] at hdur
    have ht : truthy (JValue.num n) = true := by simp [truthy, hn]
    simp [durationResolve, ht, bindVal, applyIntAffinity, Except.map, Option.getD] at hdur
    exact hdur.symm
  · intro jf pid row n hex hd hn
    have hdur := (extractJob_duration jf pid row hex).2
    rw [hd] at hdur
    have ht : truthy (JValue.num n) = true := by simp [truthy, hn]
    simp [durationResolve, ht, bindVal, applyIntAffinity, Except.map, Option.getD] at hdur
    exact hdur.symm
  · intro jf pid row hex hfalsy
    have hdur := (extractJob_duration jf pid row hex).1
    simp only [durationResolve, hfalsy, Bool.false_eq_true, if_false] at hdur
    constructor
    · intro hm
      rw [hm] at hdur
      simp [Except.map] at hdur
      exact hdur.symm
    · intro m hm
      rw [hm] at hdur
      simp [Except.map] at hdur
      exact hdur.symm
  · intro ss es sy sm ey em hss hes hp1 hp2 hp3 hp4
    simp [months_between, hss, hes, hp1, hp2, hp3, hp4]
  · intro s; cases s <;> rfl
  · intro es; cases es with
    | none => rfl
    | some x => simp [months_between]
  · intro ss
    cases ss with
    | none => rfl
    | some x => simp [months_between]
  · intro ss es hd
    by_cases hss : ss = ""
    · simp [months_between, hss]
    · by_cases hes : es = ""
      · simp [months_between, hes]
      · cases hp1 : pyInt (ss.data.take 4) <;>
          cases hp2 : pyInt ((ss.data.drop 5).take 2) <;>
          cases hp3 : pyInt (es.data.take 4) <;>
          cases hp4 : pyInt ((es.data.drop 5).take 2) <;>
          simp_all [months_between]

/-- Witness for C6: a job record with a truthy pre-supplied duration of
7 stores duration_months = 7. -/
theorem C6_theorem_witness :
    ({ person_id := SqlVal.text "p", title := .null, func := .null,
       level := .text "Unknown", company_name := .null, company_industry := .null,
       started_at := .null, ended_at := .null,
       duration_months := .int 7, company_tenure_months := .null } : JobRowJ).duration_months
      = SqlVal.int 7 :=
  C6_theorem.1 [("duration", JValue.num 7)] (SqlVal.text "p") _ 7 rfl rfl (by decide)

/-- C6 (counterexample): a job with a *pre-supplied* duration of 0 and
valid timestamps one year apart stores 12, not the supplied 0 — the
Python `or` treats the falsy 0 as absent, refuting "equals the
pre-supplied integer count when one is present". -/
theorem C6_counterexample :
    dictGet [("title", JValue.str "E"), ("started_at", JValue.str "2005-01-01"),
             ("ended_at", JValue.str "2006-01-01"), ("duration", JValue.num 0)] "duration"
      = some (JValue.num 0) ∧
    (load_record (.obj [("id", .str "p"),
        ("jobs", .arr [.obj [("title", .str "E"), ("started_at", .str "2005-01-01"),
                             ("ended_at", .str "2006-01-01"), ("duration", .num 0)]])])
      emptyStoreJ).map (fun st => st.jobs.map (fun jb => jb.duration_months))
      = .ok [SqlVal.int 12] ∧
    SqlVal.int 12 ≠ SqlVal.int 0 :=
  ⟨rfl, rfl, by decide⟩

/-! ## Claim C10: re-ingesting a duplicate person record -/

theorem insertJobsLoop_spec (pid : SqlVal) (l : List JValue) :
    ∀ (st st' : StoreJ), insertJobsLoop pid l st = .ok st' →
    ∃ rows : List JobRowJ,
      st' = { st with jobs := st.jobs ++ rows } ∧
      ∀ st2 : StoreJ, insertJobsLoop pid l st2 = .ok { st2 with jobs := st2.jobs ++ rows } := by
  induction l with
  | nil =>
    intro st st' h
    cases h
    exact ⟨[], by simp, fun st2 => by simp [insertJobsLoop]⟩
  | cons j rest ih =>
    intro st st' h
    simp only [insertJobsLoop, bind, Except.bind] at h
    cases hx : extractJob pid j with
    | error e => rw [hx] at h; cases h
    | ok row =>
      rw [hx] at h
      obtain ⟨rows, he, hrep⟩ := ih _ _ h
      refine ⟨row :: rows, ?_, ?_⟩
      · rw [he]; simp
      · intro st2
        simp only [insertJobsLoop, bind, Except.bind, hx]
        rw [hrep]
        simp

theorem insertEduLoop_spec (pid : SqlVal) (l : List JValue) :
    ∀ (st st' : StoreJ), insertEduLoop pid l st = .ok st' →
    ∃ rows : List EduRowJ,
      st' = { st with education := st.education ++ rows } ∧
      ∀ st2 : StoreJ, insertEduLoop pid l st2 = .ok { st2 with education := st2.education ++ rows } := by
  induction l with
  | nil =>
    intro st st' h
    cases h
    exact ⟨[], by simp, fun st2 => by simp [insertEduLoop]⟩
  | cons j rest ih =>
    intro st st' h
    simp only [insertEduLoop, bind, Except.bind] at h
    cases hx : extractEdu pid j with
    | error e => rw [hx] at h; cases h
    | ok row =>
      rw [hx] at h
      obtain ⟨rows, he, hrep⟩ := ih _ _ h
      refine ⟨row :: rows, ?_, ?_⟩
      · rw [he]; simp
      · intro st2
        simp only [insertEduLoop, bind, Except.bind, hx]
        rw [hrep]
        simp

theorem extractPersonRow_id (fields : List (String × JValue)) (pidJ : JValue)
    (prow : PersonRowJ) (h : extractPersonRow fields pidJ = .ok prow)
    (hnn : pidJ ≠ .null) : prow.id ≠ SqlVal.null := by
  simp only [extractPersonRow, bind, Except.bind] at h
  repeat' split at h
  all_goals cases h
  all_goals
    cases pidJ <;> simp_all [bindVal, Except.map, applyTextAffinity] <;>
      (intro hcon; simp_all)

theorem insertPersonRow_conflict (row : PersonRowJ) (st : StoreJ)
    (hnn : row.id ≠ SqlVal.null) :
    pkConflict row.id (insertPersonRow row st).persons = true := by
  unfold insertPersonRow
  by_cases hc : pkConflict row.id st.persons = true
  · simp [hc]
  · have hcf : pkConflict row.id st.persons = false := by
      revert hc; cases pkConflict row.id st.persons <;> simp
    simp only [hcf, Bool.false_eq_true, if_false]
    cases hr : row.id with
    | null => exact absurd hr hnn
    | int n => simp [pkConflict, List.any_append, ← hr]
    | text s => simp [pkConflict, List.any_append, ← hr]

theorem insertPersonRow_frame (row : PersonRowJ) (st : StoreJ) :
    (insertPersonRow row st).jobs = st.jobs ∧
    (insertPersonRow row st).education = st.education ∧
    (insertPersonRow row st).changes = st.changes := by
  unfold insertPersonRow
  split <;> simp

/-- C10 (amended): loading a record whose bound identifier is non-NULL
and already present (here: because the same record was loaded before)
raises no error, leaves the persons table unchanged, and appends the
same number of jobs rows (jk) and education rows (ek) as the first load
appended — strictly increasing those counts only when the record has
jobs or education entries — and always appends exactly one changes row.
(The original claim's "strictly increasing the jobs, education ... row
counts" fails for a record with no jobs or education entries; see the
counterexample.) -/
theorem C10_theorem : ∀ (fields : List (String × JValue)) (pidJ : JValue) (st st' : StoreJ),
    dictGet fields "id" = some pidJ → pidJ ≠ .null →
    load_record (.obj fields) st = .ok st' →
    ∃ (st'' : StoreJ) (jk ek : Nat),
      load_record (.obj fields) st' = .ok st'' ∧
      st''.persons = st'.persons ∧
      st'.jobs.length = st.jobs.length + jk ∧
      st''.jobs.length = st'.jobs.length + jk ∧
      st'.education.length = st.education.length + ek ∧
      st''.education.length = st'.education.length + ek ∧
      st'.changes.length = st.changes.length + 1 ∧
      st''.changes.length = st'.changes.length + 1 := by
  intro fields pidJ st st' hid hnn h
  simp only [load_record, hid, bind, Except.bind] at h
  cases hp : extractPersonRow fields pidJ with
  | error e => simp only [hp] at h; cases h
  | ok prow =>
    simp only [hp] at h
    cases hj : pyIter ((dictGet fields "jobs").getD (.arr [])) with
    | error e => simp only [hj] at h; cases h
    | ok jlist =>
      simp only [hj] at h
      cases hjl : insertJobsLoop prow.id jlist (insertPersonRow prow st) with
      | error e => simp only [hjl] at h; cases h
      | ok st2 =>
        simp only [hjl] at h
        cases he : pyIter ((dictGet fields "education").getD (.arr [])) with
        | error e => simp only [he] at h; cases h
        | ok elist =>
          simp only [he] at h
          cases hel : insertEduLoop prow.id elist st2 with
          | error e => simp only [hel] at h; cases h
          | ok st3 =>
            simp only [hel] at h
            cases hc : extractChangeRow fields prow.id with
            | error e => simp only [hc] at h; cases h
            | ok crow =>
              simp only [hc] at h
              cases h
              obtain ⟨jrows, hst2, hjrep⟩ := insertJobsLoop_spec prow.id jlist _ _ hjl
              obtain ⟨erows, hst3, herep⟩ := insertEduLoop_spec prow.id elist _ _ hel
              have hidnn : prow.id ≠ SqlVal.null := extractPersonRow_id fields pidJ prow hp hnn
              -- the final store of the first load
              set stF : StoreJ := { st3 with changes := st3.changes ++ [crow] } with hstF
              have hpersF : stF.persons = (insertPersonRow prow st).persons := by
                rw [hstF, hst3, hst2]
              -- re-inserting the person is a no-op
              have hconf : pkConflict prow.id stF.persons = true := by
                rw [hpersF]
                exact insertPersonRow_conflict prow st hidnn
              have hins2 : insertPersonRow prow stF = stF := by
                unfold insertPersonRow
                simp [hconf]
              refine ⟨{ stF with
                          jobs := stF.jobs ++ jrows,
                          education := stF.education ++ erows,
                          changes := (stF.changes ++ [crow]) },
                      jrows.length, erows.length, ?_, ?_, ?_, ?_, ?_, ?_, ?_, ?_⟩
              · simp only [load_record, hid, bind, Except.bind, hp, hj, he, hins2,
                  hjrep stF, herep { stF with jobs := stF.jobs ++ jrows }, hc]
              · rfl
              · rw [hstF, hst3, hst2]; simp [(insertPersonRow_frame prow st).1]
              · simp
              · rw [hstF, hst3, hst2]; simp [(insertPersonRow_frame prow st).2.1]
              · simp
              · rw [hstF, hst3, hst2]; simp [(insertPersonRow_frame prow st).2.2]
              · simp

/-- Witness for C10: re-loading a record with one job and one education
entry after a first successful load: persons unchanged, jobs and
education counts grow by the same amounts as the first load, changes by
one. -/
theorem C10_theorem_witness :
    ∃ (st'' : StoreJ) (jk ek : Nat),
      load_record
        (.obj [("id", .str "p"), ("jobs", .arr [.obj [("title", .str "T")]]),
               ("education", .arr [.obj [("field", .str "F")]])])
        { persons := [⟨.text "p", .null, .null, .null, .null, .null⟩],
          jobs := [⟨.text "p", .text "T", .null, .text "Unknown", .null, .null,
                    .null, .null, .null, .null⟩],
          education := [⟨.text "p", .null, .null, .text "F", .null, .null⟩],
          changes := [⟨.text "p", .null, .null, .null⟩] } = .ok st'' ∧
      st''.persons =
        ({ persons := [⟨.text "p", .null, .null, .null, .null, .null⟩],
           jobs := [⟨.text "p", .text "T", .null, .text "Unknown", .null, .null,
                     .null, .null, .null, .null⟩],
           education := [⟨.text "p", .null, .null, .text "F", .null, .null⟩],
           changes := [⟨.text "p", .null, .null, .null⟩] } : StoreJ).persons ∧
      ({ persons := [⟨.text "p", .null, .null, .null, .null, .null⟩],
         jobs := [⟨.text "p", .text "T", .null, .text "Unknown", .null, .null,
                   .null, .null, .null, .null⟩],
         education := [⟨.text "p", .null, .null, .text "F", .null, .null⟩],
         changes := [⟨.text "p", .null, .null, .null⟩] } : StoreJ).jobs.length
        = emptyStoreJ.jobs.length + jk ∧
      st''.jobs.length =
        ({ persons := [⟨.text "p", .null, .null, .null, .null, .null⟩],
           jobs := [⟨.text "p", .text "T", .null, .text "Unknown", .null, .null,
                     .null, .null, .null, .null⟩],
           education := [⟨.text "p", .null, .null, .text "F", .null, .null⟩],
           changes := [⟨.text "p", .null, .null, .null⟩] } : StoreJ).jobs.length + jk ∧
      ({ persons := [⟨.text "p", .null, .null, .null, .null, .null⟩],
         jobs := [⟨.text "p", .text "T", .null, .text "Unknown", .null, .null,
                   .null, .null, .null, .null⟩],
         education := [⟨.text "p", .null, .null, .text "F", .null, .null⟩],
         changes := [⟨.text "p", .null, .null, .null⟩] } : StoreJ).education.length
        = emptyStoreJ.education.length + ek ∧
      st''.education.length =
        ({ persons := [⟨.text "p", .null, .null, .null, .null, .null⟩],
           jobs := [⟨.text "p", .text "T", .null, .text "Unknown", .null, .null,
                     .null, .null, .null, .null⟩],
           education := [⟨.text "p", .null, .null, .text "F", .null, .null⟩],
           changes := [⟨.text "p", .null, .null, .null⟩] } : StoreJ).education.length + ek ∧
      ({ persons := [⟨.text "p", .null, .null, .null, .null, .null⟩],
         jobs := [⟨.text "p", .text "T", .null, .text "Unknown", .null, .null,
                   .null, .null, .null, .null⟩],
         education := [⟨.text "p", .null, .null, .text "F", .null, .null⟩],
         changes := [⟨.text "p", .null, .null, .null⟩] } : StoreJ).changes.length
        = emptyStoreJ.changes.length + 1 ∧
      st''.changes.length =
        ({ persons := [⟨.text "p", .null, .null, .null, .null, .null⟩],
           jobs := [⟨.text "p", .text "T", .null, .text "Unknown", .null, .null,
                     .null, .null, .null, .null⟩],
           education := [⟨.text "p", .null, .null, .text "F", .null, .null⟩],
           changes := [⟨.text "p", .null, .null, .null⟩] } : StoreJ).changes.length + 1 :=
  C10_theorem
    [("id", .str "p"), ("jobs", .arr [.obj [("title", .str "T")]]),
     ("education", .arr [.obj [("field", .str "F")]])]
    (.str "p") emptyStoreJ _ rfl (by intro hx; cases hx) rfl

/-- C10 (counterexample): re-ingesting a record with no jobs and no
education entries leaves the jobs (and education) row counts unchanged
(0 before and after), refuting "strictly increasing the jobs, education,
and changes row counts"; only the changes count strictly increases. -/
theorem C10_counterexample :
    ((load_record (.obj [("id", .str "p")]) emptyStoreJ).bind
      (fun st1 => (load_record (.obj [("id", .str "p")]) st1).map
        (fun st2 => (st1.persons.length, st1.jobs.length, st1.education.length,
                     st2.persons.length, st2.jobs.length, st2.education.length,
                     st1.changes.length, st2.changes.length))))
      = .ok (1, 0, 0, 1, 0, 0, 1, 2) := rfl

/-! ## Claim C9: payload shape and metadata -/

/-- C9: the exported payload has exactly the six keys metadata,
promotion_velocity, role_transitions, major_to_first_role,
industry_transitions, paths_to_role (in that order, with no
duplicates), and metadata holds the supplied generation timestamp, the
Store's persons and jobs row counts read directly (not recomputed from
the aggregation outputs — they are the row counts whatever the
aggregations return), and the source file basenames. -/
theorem C9_theorem : ∀ (db : DB) (now : String) (files : List String),
    (build_payload (compute_all db) db now files).map Prod.fst =
      ["metadata", "promotion_velocity", "role_transitions", "major_to_first_role",
       "industry_transitions", "paths_to_role"] ∧
    ((build_payload (compute_all db) db now files).map Prod.fst).Nodup ∧
    (build_payload (compute_all db) db now files).lookup "metadata" =
      some (.meta { generated_at := now, total_persons := db.persons.length,
                    total_jobs := db.jobs.length, data_files := files.map basename }) := by
  intro db now files
  have hk : (build_payload (compute_all db) db now files).map Prod.fst =
      ["metadata", "promotion_velocity", "role_transitions", "major_to_first_role",
       "industry_transitions", "paths_to_role"] := rfl
  exact ⟨hk, by rw [hk]; decide, rfl⟩

/-! ## Claim C1: which aggregations exclude unparseable start dates -/

theorem promoRows_filter (jobs : List JobRow) :
    promoRows (jobs.filter (fun r => (parseDate r.started_at).isSome)) = promoRows jobs := by
  unfold promoRows
  rw [List.filter_filter]
  apply List.filter_congr
  intro r hr
  cases hq : (parseDate r.started_at).isSome <;>
    cases hc : LEVEL_ORDER.contains r.level <;> simp [hq, hc]

/-- C1 (amended): only Promotion Velocity excludes jobs whose start
timestamp is missing or unparseable — its output is unchanged when such
jobs are deleted beforehand.  Role Transitions, Industry Transitions and
Paths-to-Role do NOT exclude them: every job with a non-null title
(resp. industry) appears in its person's ordered sequence regardless of
its start timestamp (missing starts sort last). -/
theorem C1_theorem :
    (∀ jobs : List JobRow,
        promotion_velocity jobs =
          promotion_velocity (jobs.filter (fun r => (parseDate r.started_at).isSome))) ∧
    (∀ (jobs : List JobRow) (r : JobRow), r ∈ jobs → r.title.isSome = true →
        ∃ s ∈ titleSeqs jobs, r.title.getD "" ∈ s) ∧
    (∀ (jobs : List JobRow) (r : JobRow), r ∈ jobs → r.company_industry.isSome = true →
        ∃ s ∈ indSeqs jobs, r.company_industry.getD "" ∈ s) := by
  refine ⟨?_, ?_, ?_⟩
  · intro jobs
    have ht : promoTransitions (jobs.filter (fun r => (parseDate r.started_at).isSome)) =
        promoTransitions jobs := by
      unfold promoTransitions
      rw [promoRows_filter]
    unfold promotion_velocity
    rw [ht]
  · intro jobs r hr ht
    have hmem : r ∈ jobs.filter (fun q => q.title.isSome) := List.mem_filter.mpr ⟨hr, ht⟩
    have hsorted : r ∈ sortJobs (jobs.filter fun q => q.title.isSome) :=
      (mem_sortJobs r _).mpr hmem
    obtain ⟨g, hg, hrg⟩ := mem_groupByPerson_self _ r hsorted
    refine ⟨g.2.filterMap (fun q => q.title), ?_, ?_⟩
    · unfold titleSeqs
      exact List.mem_map.mpr ⟨g, hg, rfl⟩
    · apply List.mem_filterMap.mpr
      refine ⟨r, hrg, ?_⟩
      cases htt : r.title with
      | none => rw [htt] at ht; cases ht
      | some t => simp [htt]
  · intro jobs r hr hi
    have hmem : r ∈ jobs.filter (fun q => q.company_industry.isSome) :=
      List.mem_filter.mpr ⟨hr, hi⟩
    have hsorted : r ∈ sortJobs (jobs.filter fun q => q.company_industry.isSome) :=
      (mem_sortJobs r _).mpr hmem
    obtain ⟨g, hg, hrg⟩ := mem_groupByPerson_self _ r hsorted
    refine ⟨g.2.filterMap (fun q => q.company_industry), ?_, ?_⟩
    · unfold indSeqs
      exact List.mem_map.mpr ⟨g, hg, rfl⟩
    · apply List.mem_filterMap.mpr
      refine ⟨r, hrg, ?_⟩
      cases htt : r.company_industry with
      | none => rw [htt] at hi; cases hi
      | some t => simp [htt]

/-- Witness for C1: a title row with a missing start timestamp still
appears in a Role-Transitions input sequence. -/
theorem C1_theorem_witness :
    ∃ s ∈ titleSeqs
        [{ person_id := "p1", title := some "A", level := "Unknown", company_name := none,
           company_industry := none, started_at := none, ended_at := none }],
      ("A" : String) ∈ s :=
  C1_theorem.2.1
    [{ person_id := "p1", title := some "A", level := "Unknown", company_name := none,
       company_industry := none, started_at := none, ended_at := none }]
    { person_id := "p1", title := some "A", level := "Unknown", company_name := none,
      company_industry := none, started_at := none, ended_at := none }
    (List.mem_singleton.mpr rfl) rfl

/-- C1 (counterexample): person p1 has a job titled "A" with a missing
start timestamp and a job titled "B" started 2020-01-01.  The missing
start sorts last, so Role Transitions emits the transition B → A and
Paths-to-Role records the path [B, A] — the job with the missing start
participates in both, refuting its claimed exclusion from every
transition-based statistic. -/
theorem C1_counterexample :
    role_transitions
      [{ person_id := "p1", title := some "A", level := "Unknown", company_name := none,
         company_industry := none, started_at := none, ended_at := none },
       { person_id := "p1", title := some "B", level := "Unknown", company_name := none,
         company_industry := none, started_at := some "2020-01-01", ended_at := none }]
      = [("B", [("A", (1 : ℚ))])] ∧
    paths_to_role
      [{ person_id := "p1", title := some "A", level := "Unknown", company_name := none,
         company_industry := none, started_at := none, ended_at := none },
       { person_id := "p1", title := some "B", level := "Unknown", company_name := none,
         company_industry := none, started_at := some "2020-01-01", ended_at := none }]
      = [("A", [(["B", "A"], 1)])] := by
  exact ⟨by decide, by decide⟩

/-! ## Claim C4: role vs industry transition counting, probabilities -/

theorem count_snd_filter_fst (pairs : List (String × String)) (k t : String) :
    ((pairs.filter (fun p => decide (p.1 = k))).map (fun p => p.2)).count t =
      pairs.count (k, t) := by
  induction pairs with
  | nil => rfl
  | cons p ps ih =>
    obtain ⟨a, b⟩ := p
    by_cases ha : a = k
    · by_cases hb : b = t
      · simp [List.filter_cons, List.count_cons, ih, ha, hb]
      · have hne : ¬ (a, b) = (k, t) := by
          intro he; rw [Prod.mk.injEq] at he; exact hb he.2
        simp [List.filter_cons, List.count_cons, ih, ha, hb, hne]
    · have hne : ¬ (a, b) = (k, t) := by
        intro he; rw [Prod.mk.injEq] at he; exact ha he.1
      simp [List.filter_cons, List.count_cons, ih, ha, hne]

theorem nodup_dedupSortBy_str (l : List String) : (dedupSortBy strLTb l).Nodup :=
  nodup_of_pairwise_ltb strLTb _ strLTb_asym
    (pairwise_dedupSortBy strLTb l strLTb_trans strLTb_tricho)

/-- Every value reported by `probTable` for source key k and target t is
the count of (k, t) divided by the total number of transitions out of k,
rounded to 4 decimals. -/
theorem probTable_spec (pairs : List (String × String)) (k : String)
    (m : List (String × ℚ)) (t : String) (q : ℚ)
    (h : (probTable pairs).lookup k = some m) (hm : (t, q) ∈ m) :
    q = roundQ 4 (mkRat (pairs.count (k, t) : Int)
          ((pairs.filter (fun p => decide (p.1 = k))).length)) := by
  obtain ⟨k0, hk0, hke, hme⟩ := lookup_map_keys_inv _ _ _ _ _ h
  subst hke
  subst hme
  obtain ⟨tc, htc, hte⟩ := List.mem_map.mp hm
  have htc2 := (mem_sortCountsDesc tc _).mp htc
  have hcount := mem_countsFor _ tc.1 tc.2 (by cases tc; exact htc2)
  rw [Prod.mk.injEq] at hte
  obtain ⟨hte1, hte2⟩ := hte
  subst hte1
  rw [← hte2]
  have hsum : sumSnd (sortCountsDesc (countsFor
      ((pairs.filter (fun p => decide (p.1 = k0))).map (fun p => p.2)))) =
      (pairs.filter (fun p => decide (p.1 = k0))).length := by
    rw [sumSnd_sortCountsDesc, sumSnd_countsFor, List.length_map]
  rw [hsum, hcount.1, count_snd_filter_fst]

/-- Every emitted pair appears in the table with its probability. -/
theorem probTable_mem (pairs : List (String × String)) (k t : String)
    (h : (k, t) ∈ pairs) :
    ∃ m q, (probTable pairs).lookup k = some m ∧ (t, q) ∈ m := by
  have hk : k ∈ dedupSortBy strLTb (pairs.map (fun p => p.1)) := by
    rw [mem_dedupSortBy strLTb _ _ strLTb_trans strLTb_tricho]
    exact List.mem_map.mpr ⟨(k, t), h, rfl⟩
  have hl := lookup_map_keys (dedupSortBy strLTb (pairs.map (fun p => p.1)))
    (fun k => k)
    (fun k =>
      (sortCountsDesc (countsFor ((pairs.filter (fun p => decide (p.1 = k))).map
        (fun p => p.2)))).map
        (fun tc => (tc.1, roundQ 4 (mkRat (tc.2 : Int)
          (sumSnd (sortCountsDesc (countsFor ((pairs.filter
            (fun p => decide (p.1 = k))).map (fun p => p.2)))))))))
    k hk (nodup_dedupSortBy_str _) (fun _ _ he => he)
  have htos : t ∈ (pairs.filter (fun p => decide (p.1 = k))).map (fun p => p.2) := by
    apply List.mem_map.mpr
    exact ⟨(k, t), List.mem_filter.mpr ⟨h, by simp⟩, rfl⟩
  have hcnt : 0 < ((pairs.filter (fun p => decide (p.1 = k))).map (fun p => p.2)).count t :=
    List.count_pos_iff.mpr htos
  have hlk := lookup_countsFor ((pairs.filter (fun p => decide (p.1 = k))).map
    (fun p => p.2)) t
  cases hres : (countsFor ((pairs.filter (fun p => decide (p.1 = k))).map
      (fun p => p.2))).lookup t with
  | none => rw [hres] at hlk; simp at hlk; omega
  | some c =>
    have hmem := mem_of_lookup_eq_some _ _ _ hres
    have hmem2 := (mem_sortCountsDesc (t, c) _).mpr hmem
    exact ⟨_, _, hl, List.mem_map.mpr ⟨(t, c), hmem2, rfl⟩⟩

/-- C4: Role Transitions counts every adjacent pair of a person's
ordered title sequence, including equal-title pairs; Industry
Transitions never emits an equal-industry pair; and in both tables each
reported value is the destination's count divided by the total number of
transitions from that source key, rounded to 4 decimals.  A single
person with two identically-titled jobs (same industry) yields the
self-transition A → A with probability 1.0 in Role Transitions and an
empty Industry Transitions table. -/
theorem C4_theorem :
    (∀ (jobs : List JobRow) (k : String) (m : List (String × ℚ)) (t : String) (q : ℚ),
        (role_transitions jobs).lookup k = some m → (t, q) ∈ m →
        q = roundQ 4 (mkRat ((roleTransPairs jobs).count (k, t) : Int)
              (((roleTransPairs jobs).filter (fun p => decide (p.1 = k))).length))) ∧
    (∀ (jobs : List JobRow) (k t : String), (k, t) ∈ roleTransPairs jobs →
        ∃ m q, (role_transitions jobs).lookup k = some m ∧ (t, q) ∈ m) ∧
    (∀ (jobs : List JobRow) (k : String) (m : List (String × ℚ)) (t : String) (q : ℚ),
        (industry_transitions jobs).lookup k = some m → (t, q) ∈ m →
        q = roundQ 4 (mkRat ((indTransPairs jobs).count (k, t) : Int)
              (((indTransPairs jobs).filter (fun p => decide (p.1 = k))).length))) ∧
    (∀ (jobs : List JobRow) (p : String × String), p ∈ indTransPairs jobs → ¬ p.1 = p.2) ∧
    role_transitions
      [{ person_id := "p1", title := some "A", level := "Unknown", company_name := none,
         company_industry := some "T", started_at := some "2020-01-01", ended_at := none },
       { person_id := "p1", title := some "A", level := "Unknown", company_name := none,
         company_industry := some "T", started_at := some "2021-01-01", ended_at := none }]
      = [("A", [("A", 1)])] ∧
    industry_transitions
      [{ person_id := "p1", title := some "A", level := "Unknown", company_name := none,
         company_industry := some "T", started_at := some "2020-01-01", ended_at := none },
       { person_id := "p1", title := some "A", level := "Unknown", company_name := none,
         company_industry := some "T", started_at := some "2021-01-01", ended_at := none }]
      = [] := by
  refine ⟨?_, ?_, ?_, ?_, by decide, by decide⟩
  · intro jobs k m t q h hm
    exact probTable_spec (roleTransPairs jobs) k m t q h hm
  · intro jobs k t h
    exact probTable_mem (roleTransPairs jobs) k t h
  · intro jobs k m t q h hm
    exact probTable_spec (indTransPairs jobs) k m t q h hm
  · intro jobs p h
    unfold indTransPairs at h
    obtain ⟨s, hs, hp⟩ := List.mem_flatMap.mp h
    have := (List.mem_filter.mp hp).2
    simpa using this

/-- Witness for C4: in the single-person equal-title table, the value
reported for A → A is count 1 divided by total 1, rounded. -/
theorem C4_theorem_witness :
    (1 : ℚ) = roundQ 4 (mkRat ((roleTransPairs
      [{ person_id := "p1", title := some "A", level := "Unknown", company_name := none,
         company_industry := some "T", started_at := some "2020-01-01", ended_at := none },
       { person_id := "p1", title := some "A", level := "Unknown", company_name := none,
         company_industry := some "T", started_at := some "2021-01-01", ended_at := none }]).count
        ("A", "A") : Int)
      (((roleTransPairs
      [{ person_id := "p1", title := some "A", level := "Unknown", company_name := none,
         company_industry := some "T", started_at := some "2020-01-01", ended_at := none },
       { person_id := "p1", title := some "A", level := "Unknown", company_name := none,
         company_industry := some "T", started_at := some "2021-01-01", ended_at := none }]).filter
        (fun p => decide (p.1 = "A"))).length)) :=
  C4_theorem.1 _ "A" [("A", 1)] "A" 1 (by decide) (by decide)

/-! ## Claim C3: promotion velocity grouping and confidence -/

theorem pairLTb_asym : ∀ a b : String × String, pairLTb a b = true →
    pairLTb b a = false := by
  intro a b h
  simp only [pairLTb, Bool.or_eq_true, Bool.and_eq_true, decide_eq_true_eq] at h
  simp only [pairLTb, Bool.or_eq_false_iff, Bool.and_eq_false_iff, decide_eq_false_iff_not]
  rcases h with h | ⟨he, hs⟩
  · constructor
    · exact strLTb_asym _ _ h
    · left; intro he; exact strLTb_ne _ _ h he.symm
  · constructor
    · rw [← he]; exact strLTb_irrefl _
    · right; exact strLTb_asym _ _ hs

/-- Every emitted promotion transition has both levels in LEVEL_ORDER. -/
theorem promoTransitions_levels (jobs : List JobRow) (t : PromoTrans)
    (h : t ∈ promoTransitions jobs) :
    t.from_level ∈ LEVEL_ORDER ∧ t.to_level ∈ LEVEL_ORDER := by
  unfold promoTransitions at h
  obtain ⟨g, hg, ht⟩ := List.mem_flatMap.mp h
  obtain ⟨ab, hab, he⟩ := List.mem_filterMap.mp ht
  by_cases hlv : ab.1.level = ab.2.level
  · rw [if_pos hlv] at he; cases he
  · rw [if_neg hlv] at he
    have hrows : ∀ r ∈ g.2, r ∈ promoRows jobs := by
      intro r hr
      rw [groupByPerson_rows _ g hg] at hr
      exact (mem_sortJobsD r _).mp (List.mem_filter.mp hr).1
    have hmm := adjPairs_mem g.2 ab.1 ab.2 (by cases ab; exact hab)
    have h1 := hrows ab.1 hmm.1
    have h2 := hrows ab.2 hmm.2
    have hc1 := (List.mem_filter.mp h1).2
    have hc2 := (List.mem_filter.mp h2).2
    cases he
    constructor
    · have : LEVEL_ORDER.contains ab.1.level = true := by
        revert hc1; cases LEVEL_ORDER.contains ab.1.level <;> simp
      simpa using this
    · have : LEVEL_ORDER.contains ab.2.level = true := by
        revert hc2; cases LEVEL_ORDER.contains ab.2.level <;> simp
      simpa using this

/-- The "LEVEL -> LEVEL" key format is injective on canonical levels. -/
theorem levelKey_inj : ∀ a1 ∈ LEVEL_ORDER, ∀ a2 ∈ LEVEL_ORDER,
    ∀ b1 ∈ LEVEL_ORDER, ∀ b2 ∈ LEVEL_ORDER,
    a1 ++ " -> " ++ a2 = b1 ++ " -> " ++ b2 → a1 = b1 ∧ a2 = b2 := by decide

/-- C3: for every (fromLevel, toLevel) group with at least one emitted
transition (adjacent pairs with differing canonical levels, Unknown
excluded, gap in days divided by 30.44), the output entry under the key
"from -> to" reports the median of the group's gaps rounded to one
decimal, the group's size as sample_size, and low_confidence exactly
when the size is below 10 — so a 9-transition group is flagged and a
10-transition group is not. -/
theorem C3_theorem :
    (∀ (jobs : List JobRow) (fl tl : String),
        (promoTransitions jobs).filter
            (fun t => decide (t.from_level = fl) && decide (t.to_level = tl)) ≠ [] →
        (promotion_velocity jobs).lookup (fl ++ " -> " ++ tl) =
          some { median_months := roundQ 1 (((promoTransitions jobs).filter
                    (fun t => decide (t.from_level = fl) && decide (t.to_level = tl))).map
                      (fun t => t.gap_months) |> median),
                 sample_size := ((promoTransitions jobs).filter
                    (fun t => decide (t.from_level = fl) && decide (t.to_level = tl))).length,
                 low_confidence := decide (((promoTransitions jobs).filter
                    (fun t => decide (t.from_level = fl) &&
                      decide (t.to_level = tl))).length < 10) }) ∧
    (∀ (jobs : List JobRow) (key : String) (st : VelocityStat),
        (promotion_velocity jobs).lookup key = some st →
        st.low_confidence = decide (st.sample_size < 10) ∧
        (st.sample_size = 9 → st.low_confidence = true) ∧
        (st.sample_size = 10 → st.low_confidence = false)) := by
  constructor
  · intro jobs fl tl hne
    obtain ⟨t0, ht0⟩ := List.exists_mem_of_ne_nil _ hne
    have ht0f := List.mem_filter.mp ht0
    have ht0ts := ht0f.1
    have hprops := ht0f.2
    simp only [Bool.and_eq_true, decide_eq_true_eq] at hprops
    obtain ⟨hfl, htl⟩ := hprops
    have hlv := promoTransitions_levels jobs t0 ht0ts
    have hflL : fl ∈ LEVEL_ORDER := hfl ▸ hlv.1
    have htlL : tl ∈ LEVEL_ORDER := htl ▸ hlv.2
    have hk : (fl, tl) ∈ dedupSortBy pairLTb
        ((promoTransitions jobs).map (fun t => (t.from_level, t.to_level))) := by
      rw [mem_dedupSortBy pairLTb _ _ pairLTb_trans pairLTb_tricho]
      exact List.mem_map.mpr ⟨t0, ht0ts, by rw [hfl, htl]⟩
    have hnd : (dedupSortBy pairLTb
        ((promoTransitions jobs).map (fun t => (t.from_level, t.to_level)))).Nodup :=
      nodup_of_pairwise_ltb pairLTb _ pairLTb_asym
        (pairwise_dedupSortBy pairLTb _ pairLTb_trans pairLTb_tricho)
    have hinj : ∀ k ∈ dedupSortBy pairLTb
        ((promoTransitions jobs).map (fun t => (t.from_level, t.to_level))),
        k.1 ++ " -> " ++ k.2 = (fl, tl).1 ++ " -> " ++ (fl, tl).2 → k = (fl, tl) := by
      intro k hkm he
      rw [mem_dedupSortBy pairLTb _ _ pairLTb_trans pairLTb_tricho] at hkm
      obtain ⟨t1, ht1, hke⟩ := List.mem_map.mp hkm
      have hlv1 := promoTransitions_levels jobs t1 ht1
      have hk1 : k.1 ∈ LEVEL_ORDER := by rw [← hke]; exact hlv1.1
      have hk2 : k.2 ∈ LEVEL_ORDER := by rw [← hke]; exact hlv1.2
      have := levelKey_inj k.1 hk1 k.2 hk2 fl hflL tl htlL he
      exact Prod.ext this.1 this.2
    exact lookup_map_keys _ _ _ (fl, tl) hk hnd hinj
  · intro jobs key st h
    obtain ⟨k0, hk0, hke, hse⟩ := lookup_map_keys_inv _ _ _ _ _ h
    subst hse
    refine ⟨rfl, fun h9 => ?_, fun h10 => ?_⟩
    · have h9l : ((promoTransitions jobs).filter
          (fun t => decide (t.from_level = k0.1) && decide (t.to_level = k0.2))).length = 9 := h9
      show decide (((promoTransitions jobs).filter
          (fun t => decide (t.from_level = k0.1) && decide (t.to_level = k0.2))).length < 10) = true
      rw [h9l]
      rfl
    · have h10l : ((promoTransitions jobs).filter
          (fun t => decide (t.from_level = k0.1) && decide (t.to_level = k0.2))).length = 10 := h10
      show decide (((promoTransitions jobs).filter
          (fun t => decide (t.from_level = k0.1) && decide (t.to_level = k0.2))).length < 10) = false
      rw [h10l]
      rfl

/-- Witness for C3: nine persons, each with one IC → Senior transition
of 366 days, give a group with median 12.0 months, sample size 9, and
low_confidence = true. -/
theorem C3_theorem_witness :
    (promotion_velocity ((List.range 9).flatMap (fun i =>
        [{ person_id := toString i, title := some "A", level := "IC", company_name := none,
           company_industry := none, started_at := some "2020-01-01", ended_at := none },
         { person_id := toString i, title := some "B", level := "Senior", company_name := none,
           company_industry := none, started_at := some "2021-01-01", ended_at := none }]))).lookup
      ("IC" ++ " -> " ++ "Senior")
      = some { median_months := mkRat 12 1, sample_size := 9, low_confidence := true } := by
  have h := C3_theorem.1 ((List.range 9).flatMap (fun i =>
        [{ person_id := toString i, title := some "A", level := "IC", company_name := none,
           company_industry := none, started_at := some "2020-01-01", ended_at := none },
         { person_id := toString i, title := some "B", level := "Senior", company_name := none,
           company_industry := none, started_at := some "2021-01-01", ended_at := none }]))
    "IC" "Senior" (by decide)
  rw [h]
  decide

/-! ## Claim C8: paths-to-role output shape -/

theorem mem_of_mem_countsFor [DecidableEq α] (l : List α) (k : α) (c : Nat)
    (h : (k, c) ∈ countsFor l) : k ∈ l := by
  have hc := mem_countsFor l k c h
  have hpos : 0 < l.count k := by rw [← hc.1]; exact hc.2
  exact List.count_pos_iff.mp hpos

theorem count_eq_filter_length [DecidableEq α] (l : List α) (k : α) :
    l.count k = (l.filter (fun y => decide (y = k))).length := by
  induction l with
  | nil => rfl
  | cons a as ih =>
    by_cases ha : a = k <;> simp [List.count_cons, List.filter_cons, ha, ih]

/-- The recorded count, phrased as a filter length (instance-free). -/
theorem mem_countsFor_filter [DecidableEq α] (l : List α) (k : α) (c : Nat)
    (h : (k, c) ∈ countsFor l) :
    c = (l.filter (fun y => decide (y = k))).length ∧ 0 < c := by
  have hc := mem_countsFor l k c h
  exact ⟨by rw [hc.1]; exact count_eq_filter_length l k, hc.2⟩

theorem filter_eq_length_of_pred [DecidableEq α] (l : List α) (q : α → Bool) (x : α)
    (hq : q x = true) :
    ((l.filter q).filter (fun y => decide (y = x))).length =
      (l.filter (fun y => decide (y = x))).length := by
  rw [List.filter_filter]
  congr 1
  apply List.filter_congr
  intro a ha
  by_cases hax : a = x
  · subst hax; simp [hq]
  · simp [hax]

theorem filter_insertDesc_of_eq (x : α × Nat) (c : Nat) (hx : x.2 = c)
    (l : List (α × Nat)) :
    (insertDesc x l).filter (fun e => decide (e.2 = c))
      = x :: l.filter (fun e => decide (e.2 = c)) := by
  induction l with
  | nil => simp [insertDesc, hx]
  | cons y ys ih =>
    by_cases hy : y.2 ≤ x.2
    · simp only [insertDesc]
      rw [if_pos hy]
      simp [List.filter_cons, hx]
    · have hyc : ¬ y.2 = c := fun he => hy (le_of_eq (he.trans hx.symm))
      simp [insertDesc, hy, List.filter_cons, ih, hyc]

theorem filter_insertDesc_of_ne (x : α × Nat) (c : Nat) (hx : ¬ x.2 = c)
    (l : List (α × Nat)) :
    (insertDesc x l).filter (fun e => decide (e.2 = c))
      = l.filter (fun e => decide (e.2 = c)) := by
  induction l with
  | nil => simp [insertDesc, hx]
  | cons y ys ih =>
    by_cases hy : y.2 ≤ x.2
    · simp [insertDesc, hy, List.filter_cons, hx]
    · simp [insertDesc, hy, List.filter_cons, ih]

/-- Stability of the descending sort: the entries holding any one count
appear in the same relative order as in the input (for `countsFor`
input, the counter's first-seen order). -/
theorem sortCountsDesc_stable (l : List (α × Nat)) (c : Nat) :
    (sortCountsDesc l).filter (fun e => decide (e.2 = c))
      = l.filter (fun e => decide (e.2 = c)) := by
  induction l with
  | nil => rfl
  | cons x xs ih =>
    by_cases hx : x.2 = c
    · rw [sortCountsDesc, filter_insertDesc_of_eq x c hx, ih, List.filter_cons]
      simp [hx]
    · rw [sortCountsDesc, filter_insertDesc_of_ne x c hx, ih, List.filter_cons]
      simp [hx]

/-- C8: every final role's list is the first 5 entries of the stable
descending sort of the path counter, so it holds at most 5 entries
ordered by non-increasing frequency, and ties keep the counter's stable
first-seen order (filtering the sorted counter at any one frequency
returns the counter's first-seen order unchanged); each entry's path is
a non-empty ordered title list ending in the final role, and its
frequency is positive and equals the number of persons whose entire
ordered title sequence is exactly that path. -/
theorem C8_theorem : ∀ (jobs : List JobRow) (f : String) (l : List (List String × Nat)),
    (paths_to_role jobs).lookup f = some l →
    l = (sortCountsDesc (countsFor (((titleSeqs jobs).filter (fun ts => !ts.isEmpty)).filter
          (fun ts => decide (ts.getLastD "" = f))))).take 5 ∧
    (∀ c : Nat,
      (sortCountsDesc (countsFor (((titleSeqs jobs).filter (fun ts => !ts.isEmpty)).filter
            (fun ts => decide (ts.getLastD "" = f))))).filter (fun e => decide (e.2 = c))
        = (countsFor (((titleSeqs jobs).filter (fun ts => !ts.isEmpty)).filter
            (fun ts => decide (ts.getLastD "" = f)))).filter (fun e => decide (e.2 = c))) ∧
    l.length ≤ 5 ∧
    List.Pairwise (fun a b : List String × Nat => b.2 ≤ a.2) l ∧
    (∀ (p : List String) (c : Nat), (p, c) ∈ l →
      ¬ p = [] ∧ 0 < c ∧ p.getLastD "" = f ∧
      c = ((titleSeqs jobs).filter (fun ts => decide (ts = p))).length) := by
  intro jobs f l h
  obtain ⟨f0, hf0, hfe, hle⟩ := lookup_map_keys_inv _ _ _ _ _ h
  subst hfe
  subst hle
  refine ⟨rfl, fun c => sortCountsDesc_stable _ c, List.length_take_le _ _, ?_, ?_⟩
  · exact List.Pairwise.sublist (List.take_sublist _ _) (pairwise_sortCountsDesc _)
  · intro p c hm
    have hm2 : (p, c) ∈ sortCountsDesc (countsFor
        (((titleSeqs jobs).filter (fun ts => !ts.isEmpty)).filter
          (fun ts => decide (ts.getLastD "" = f0)))) :=
      (List.take_sublist _ _).subset hm
    have hm3 := (mem_sortCountsDesc _ _).mp hm2
    have hc := mem_countsFor_filter _ p c hm3
    have hpmem : p ∈ ((titleSeqs jobs).filter (fun ts => !ts.isEmpty)).filter
        (fun ts => decide (ts.getLastD "" = f0)) := mem_of_mem_countsFor _ p c hm3
    have hpf := List.mem_filter.mp hpmem
    have hpne : (!p.isEmpty) = true := (List.mem_filter.mp hpf.1).2
    have hplast : p.getLastD "" = f0 := by simpa using hpf.2
    refine ⟨by simpa using hpne, hc.2, hplast, ?_⟩
    rw [hc.1,
      filter_eq_length_of_pred ((titleSeqs jobs).filter (fun ts => !ts.isEmpty))
        (fun ts => decide (ts.getLastD "" = f0)) p hpf.2,
      filter_eq_length_of_pred (titleSeqs jobs) (fun ts => !ts.isEmpty) p hpne]

/-- Witness for C8 at a database with a genuine tie: two distinct paths
to final role A, each with frequency 1, listed in the counter's
first-seen order (person p1's one-job path first). -/
theorem C8_theorem_witness :
    [(["A"], 1), (["B", "A"], 1)]
      = (sortCountsDesc (countsFor (((titleSeqs
          [{ person_id := "p1", title := some "A", level := "Unknown", company_name := none,
             company_industry := none, started_at := some "2020-01-01", ended_at := none },
           { person_id := "p2", title := some "B", level := "Unknown", company_name := none,
             company_industry := none, started_at := some "2019-01-01", ended_at := none },
           { person_id := "p2", title := some "A", level := "Unknown", company_name := none,
             company_industry := none, started_at := some "2020-01-01", ended_at := none }]).filter
            (fun ts => !ts.isEmpty)).filter
          (fun ts => decide (ts.getLastD "" = "A"))))).take 5 := by
  have h := C8_theorem
    [{ person_id := "p1", title := some "A", level := "Unknown", company_name := none,
       company_industry := none, started_at := some "2020-01-01", ended_at := none },
     { person_id := "p2", title := some "B", level := "Unknown", company_name := none,
       company_industry := none, started_at := some "2019-01-01", ended_at := none },
     { person_id := "p2", title := some "A", level := "Unknown", company_name := none,
       company_industry := none, started_at := some "2020-01-01", ended_at := none }]
    "A" [(["A"], 1), (["B", "A"], 1)] (by decide)
  exact h.1

/-! ## C5: major to first role (src/analytics.py, `major_to_first_role`) -/

theorem strLTb_lt_of_nlt (a b c : String) (h1 : strLTb a b = true)
    (h2 : strLTb c b = false) : strLTb a c = true := by
  cases hac : strLTb a c with
  | true => rfl
  | false =>
    cases hca : strLTb c a with
    | true =>
      have hcb := strLTb_trans c a b hca h1
      rw [h2] at hcb
      cases hcb
    | false =>
      have he := strLTb_tricho a c hac hca
      rw [he] at h1
      rw [h1] at h2
      cases h2

/-- Invariant of the SQL `MIN` fold: a `some` result is one of the folded
values (or the initial accumulator), and no folded value or initial
accumulator is strictly below it. -/
theorem minFold_spec : ∀ (l : List String) (acc : Option String) (s : String),
    l.foldl minAcc acc = some s →
    (s ∈ l ∨ acc = some s) ∧
    (∀ x ∈ l, strLTb x s = false) ∧
    (∀ m0, acc = some m0 → strLTb m0 s = false) := by
  intro l
  induction l with
  | nil =>
    intro acc s h
    rw [List.foldl_nil] at h
    refine ⟨Or.inr h, ?_, ?_⟩
    · intro x hx
      exact absurd hx (List.not_mem_nil x)
    · intro m0 hm0
      rw [h] at hm0
      injection hm0 with he
      rw [← he]
      exact strLTb_irrefl s
  | cons y ys ih =>
    intro acc s h
    rw [List.foldl_cons] at h
    cases acc with
    | none =>
      have h1 : ys.foldl minAcc (some y) = some s := h
      obtain ⟨hmem, hall, hacc⟩ := ih (some y) s h1
      have hys : strLTb y s = false := hacc y rfl
      refine ⟨?_, ?_, ?_⟩
      · rcases hmem with hm | hm
        · exact Or.inl (List.mem_cons_of_mem y hm)
        · injection hm with he
          rw [he]
          exact Or.inl (List.mem_cons_self s ys)
      · intro x hx
        rcases List.mem_cons.mp hx with he | hx2
        · rw [he]
          exact hys
        · exact hall x hx2
      · intro m0 hm0
        cases hm0
    | some m =>
      cases hym : strLTb y m with
      | true =>
        have h1 : ys.foldl minAcc (some (if strLTb y m then y else m)) = some s := h
        rw [if_pos hym] at h1
        obtain ⟨hmem, hall, hacc⟩ := ih (some y) s h1
        have hys : strLTb y s = false := hacc y rfl
        refine ⟨?_, ?_, ?_⟩
        · rcases hmem with hm | hm
          · exact Or.inl (List.mem_cons_of_mem y hm)
          · injection hm with he
            rw [he]
            exact Or.inl (List.mem_cons_self s ys)
        · intro x hx
          rcases List.mem_cons.mp hx with he | hx2
          · rw [he]
            exact hys
          · exact hall x hx2
        · intro m0 hm0
          injection hm0 with he
          rw [← he]
          cases hms : strLTb m s with
          | false => rfl
          | true =>
            have hcon := strLTb_trans y m s hym hms
            rw [hys] at hcon
            cases hcon
      | false =>
        have h1 : ys.foldl minAcc (some (if strLTb y m then y else m)) = some s := h
        have hneg : ¬ strLTb y m = true := by
          rw [hym]
          exact Bool.false_ne_true
        rw [if_neg hneg] at h1
        obtain ⟨hmem, hall, hacc⟩ := ih (some m) s h1
        have hms : strLTb m s = false := hacc m rfl
        refine ⟨?_, ?_, ?_⟩
        · rcases hmem with hm | hm
          · exact Or.inl (List.mem_cons_of_mem y hm)
          · exact Or.inr hm
        · intro x hx
          rcases List.mem_cons.mp hx with he | hx2
          · rw [he]
            cases hys : strLTb y s with
            | false => rfl
            | true =>
              have hcon := strLTb_lt_of_nlt y s m hys hms
              rw [hym] at hcon
              cases hcon
          · exact hall x hx2
        · intro m0 hm0
          injection hm0 with he
          rw [← he]
          exact hms

/-- `minStartOf jobs p = some s` means: `s` is the start of one of p's
jobs with non-null title and start, and no such job starts strictly
earlier. -/
theorem minStartOf_spec (jobs : List JobRow) (p : String) (s : String)
    (h : minStartOf jobs p = some s) :
    (∃ j ∈ jobs, j.person_id = p ∧ j.title.isSome = true ∧ j.started_at = some s) ∧
    (∀ j ∈ jobs, j.person_id = p → j.title.isSome = true →
      ∀ s', j.started_at = some s' → strLTb s' s = false) := by
  unfold minStartOf at h
  obtain ⟨hmem, hall, -⟩ := minFold_spec _ none s h
  constructor
  · rcases hmem with hm | hm
    · obtain ⟨r, hr, hrs⟩ := List.mem_filterMap.mp hm
      have hrf := List.mem_filter.mp hr
      have hp := hrf.2
      simp only [Bool.and_eq_true, decide_eq_true_eq] at hp
      exact ⟨r, hrf.1, hp.1.1, hp.2, hrs⟩
    · cases hm
  · intro j hj hjp hjt s' hjs
    apply hall
    apply List.mem_filterMap.mpr
    refine ⟨j, List.mem_filter.mpr ⟨hj, ?_⟩, hjs⟩
    simp only [Bool.and_eq_true, decide_eq_true_eq]
    exact ⟨⟨hjp, by rw [hjs]; rfl⟩, hjt⟩

theorem filter_fst_map_pair (x k : String) (l : List (String × String)) :
    ((l.map (fun ft => (x, ft.2))).filter (fun p => decide (p.1 = k))).map (fun p => p.2)
      = if x = k then l.map (fun ft => ft.2) else [] := by
  induction l with
  | nil => by_cases hx : x = k <;> simp [hx]
  | cons a as ih =>
    by_cases hx : x = k
    · subst hx
      simp [ih]
    · simp [hx, ih]

/-- The per-field title group that `major_to_first_role` builds from the
merged education-times-first-jobs frame equals `fieldFirstTitles`. -/
theorem merged_group_eq (db : DB) (k : String) :
    ((((db.education.filterMap (fun e => e.field.map (fun f => (e.person_id, f)))).flatMap
        (fun pf => ((firstJobs db.jobs).filter (fun ft => decide (ft.1 = pf.1))).map
          (fun ft => (pf.2, ft.2)))).filter (fun p => decide (p.1 = k))).map (fun p => p.2))
      = fieldFirstTitles db k := by
  unfold fieldFirstTitles
  generalize db.education.filterMap (fun e => e.field.map (fun f => (e.person_id, f))) = ed
  induction ed with
  | nil => rfl
  | cons e es ih =>
    simp only [List.flatMap_cons, List.filter_append, List.map_append, ih]
    congr 1
    rw [filter_fst_map_pair e.2 k ((firstJobs db.jobs).filter (fun ft => decide (ft.1 = e.1)))]

/-- C5 counterexample: two jobs of person p tied on the earliest start
2020-01-01 (titles A and B) BOTH appear in the first-jobs query (the SQL
join keeps every row matching the MIN start), so the education row
(field F) joins against two first jobs of one person and the output
reports two titles at proportion 1/2 each — refuting the claim that the
join is against "the single job per person" (one first job per person). -/
theorem C5_counterexample :
    firstJobs
        [{ person_id := "p", title := some "A", level := "Unknown", company_name := none,
           company_industry := none, started_at := some "2020-01-01", ended_at := none },
         { person_id := "p", title := some "B", level := "Unknown", company_name := none,
           company_industry := none, started_at := some "2020-01-01", ended_at := none }]
      = [("p", "A"), ("p", "B")] ∧
    major_to_first_role
        { persons := ["p"],
          jobs := [{ person_id := "p", title := some "A", level := "Unknown",
                     company_name := none, company_industry := none,
                     started_at := some "2020-01-01", ended_at := none },
                   { person_id := "p", title := some "B", level := "Unknown",
                     company_name := none, company_industry := none,
                     started_at := some "2020-01-01", ended_at := none }],
          education := [{ person_id := "p", field := some "F" }] }
      = [("F", [("A", mkRat 1 2), ("B", mkRat 1 2)])] :=
  ⟨by decide, by decide⟩

/-- C5 (amended): the first-jobs query joins each education field
against every job of the person whose non-null start equals the MIN
non-null start among that person's jobs with non-null title — ties keep
every tied job, so a person can contribute several "first" jobs; the
MIN is a qualifying job's start and no qualifying job starts earlier;
and each field's output mapping has at most 10 entries whose value is
that title's count within the field's first-job titles divided by the
top-10-only total, rounded to 4 decimals. -/
theorem C5_theorem : ∀ (db : DB),
    (∀ (p t : String), (p, t) ∈ firstJobs db.jobs ↔
        ∃ j ∈ db.jobs, j.person_id = p ∧ j.title = some t ∧
          minStartOf db.jobs p = j.started_at ∧ j.started_at.isSome = true) ∧
    (∀ (p s : String), minStartOf db.jobs p = some s →
        (∃ j ∈ db.jobs, j.person_id = p ∧ j.title.isSome = true ∧ j.started_at = some s) ∧
        (∀ j ∈ db.jobs, j.person_id = p → j.title.isSome = true →
          ∀ s', j.started_at = some s' → strLTb s' s = false)) ∧
    (∀ (k : String) (m : List (String × ℚ)),
        (major_to_first_role db).lookup k = some m →
        m.length ≤ 10 ∧
        ∀ (t : String) (q : ℚ), (t, q) ∈ m →
          q = roundQ 4 (mkRat
            ((((fieldFirstTitles db k).filter (fun y => decide (y = t))).length : Int))
            (sumSnd ((sortCountsDesc (countsFor (fieldFirstTitles db k))).take 10)))) := by
  intro db
  refine ⟨?_, ?_, ?_⟩
  · intro p t
    constructor
    · intro h
      obtain ⟨j, hj, he⟩ := List.mem_filterMap.mp h
      cases ht : j.title with
      | none =>
        cases hs : j.started_at with
        | none =>
          simp only [ht, hs] at he
          cases he
        | some s0 =>
          simp only [ht, hs] at he
          cases he
      | some t0 =>
        cases hs : j.started_at with
        | none =>
          simp only [ht, hs] at he
          cases he
        | some s0 =>
          simp only [ht, hs] at he
          by_cases hmin : minStartOf db.jobs j.person_id = some s0
          · rw [if_pos hmin] at he
            injection he with he2
            rw [Prod.mk.injEq] at he2
            obtain ⟨hp, ht2⟩ := he2
            refine ⟨j, hj, hp, ?_, ?_, ?_⟩
            · rw [ht, ht2]
            · rw [← hp, hs]
              exact hmin
            · rw [hs]
              rfl
          · rw [if_neg hmin] at he
            cases he
    · rintro ⟨j, hj, hp, ht, hmin, hsome⟩
      apply List.mem_filterMap.mpr
      refine ⟨j, hj, ?_⟩
      cases hs : j.started_at with
      | none =>
        rw [hs] at hsome
        cases hsome
      | some s0 =>
        rw [hs] at hmin
        simp only [ht, hs, hp]
        rw [if_pos hmin]
  · intro p s h
    exact minStartOf_spec db.jobs p s h
  · intro k m h
    simp only [major_to_first_role] at h
    split at h
    · exact absurd h (by simp)
    · obtain ⟨k0, hk0, hke, hme⟩ := lookup_map_keys_inv _ _ _ _ _ h
      subst hke
      subst hme
      refine ⟨by rw [List.length_map]; exact List.length_take_le _ _, ?_⟩
      intro t q hq
      obtain ⟨tc, htc, hpf⟩ := List.mem_map.mp hq
      rw [Prod.mk.injEq] at hpf
      obtain ⟨ht2, hq2⟩ := hpf
      have htc2 := (mem_sortCountsDesc _ _).mp ((List.take_sublist _ _).subset htc)
      have hc := mem_countsFor_filter _ tc.1 tc.2 htc2
      rw [← hq2, ← ht2, hc.1, merged_group_eq]

/-- Witness for C5 at the tie database: field F's mapping (two entries)
has at most 10 entries. -/
theorem C5_theorem_witness :
    ([("A", mkRat 1 2), ("B", mkRat 1 2)] : List (String × ℚ)).length ≤ 10 := by
  have h := C5_theorem
    { persons := ["p"],
      jobs := [{ person_id := "p", title := some "A", level := "Unknown",
                 company_name := none, company_industry := none,
                 started_at := some "2020-01-01", ended_at := none },
               { person_id := "p", title := some "B", level := "Unknown",
                 company_name := none, company_industry := none,
                 started_at := some "2020-01-01", ended_at := none }],
      education := [{ person_id := "p", field := some "F" }] }
  exact (h.2.2 "F" [("A", mkRat 1 2), ("B", mkRat 1 2)] (by decide)).1

end SkillShock
